import Mathlib

/-!
Shallow embedding of the mockchain ledger (chain-impl-mockchain/src/ledger.rs)
and of the sub-ledgers it relies on. Pure Rust functions become Lean
functions; `&mut` state becomes explicit state passing; fallible code
returns an explicit result type. Machine integers are Nat with explicit
64-bit bounds where overflow matters. Amounts, keys and hashes are Nat.
-/

namespace Mockchain

/-- Exclusive upper bound of a 64-bit amount (`Value` wraps a `u64`). -/
def U64 : Nat := 18446744073709551616

/-- Value arithmetic error (value.rs); the only case relevant here is overflow. -/
inductive ValueError
  | Overflow
deriving DecidableEq

/-- Checked 64-bit addition, mirroring `Value::checked_add`. -/
def value_checked_add (a b : Nat) : Option Nat :=
  if a + b < U64 then some (a + b) else none

/-- Checked sum over a list of amounts, mirroring `Value::sum`. -/
def value_sum : List Nat → Option Nat
  | [] => some 0
  | v :: vs =>
    match value_sum vs with
    | none => none
    | some t => value_checked_add v t

/-- A deterministic mixing function standing in for the Blake2b-based
content hashes of the source; any deterministic function of the content
is adequate because the ledger only compares hashes for equality. -/
def natMix (a b : Nat) : Nat :=
  (a + b) * (a + b + 1) / 2 + b

/-- Address discrimination tag (chain-addr). -/
inductive Discrimination
  | Production
  | Test
deriving DecidableEq

/-- Modelled from the spec (§3): address kinds of chain-addr, which is not
under src/. Single(public-key), Group(spending-key, account-key),
Account(account-key), Multisig(msig-identifier); keys are Nat. -/
inductive Kind
  | Single (key : Nat)
  | Group (spending_key : Nat) (account_key : Nat)
  | Account (key : Nat)
  | Multisig (id : Nat)
deriving DecidableEq

/-- Modelled from the spec (§3): an address is a discrimination tag plus a kind. -/
structure Address where
  discrim : Discrimination
  kind : Kind
deriving DecidableEq

/-- Accessor mirroring `Address::discrimination`. -/
def Address.discrimination (a : Address) : Discrimination := a.discrim

/-- Modelled from the spec (§4.8): `Address::public_key` of chain-addr (not
under src/) yields the spending key of a Single or Group address and
nothing for Account and Multisig addresses. -/
def Address.public_key (a : Address) : Option Nat :=
  match a.kind with
  | .Single k => some k
  | .Group k _ => some k
  | .Account _ => none
  | .Multisig _ => none

/-- An output: address and (strictly positive) value. Generic over the
address type exactly as `Output<Address>` / `Output<OldAddress>`. -/
structure Output (A : Type) where
  address : A
  value : Nat
deriving DecidableEq

/-- Modelled from the spec (§4.8): a legacy address, reduced to the
derivation root the old-utxo witness check compares against. -/
structure OldAddress where
  root : Nat
deriving DecidableEq

/-- Modelled from the spec (§4.8): `legacy::oldaddress_from_xpub` (not under
src/) — whether the legacy address derives from the given extended public
key, i.e. whether the xpub matches the address derivation. -/
def oldaddress_from_xpub (a : OldAddress) (xpub : Nat) : Bool :=
  a.root == xpub

/-- Modelled from the spec (§4.13): a legacy utxo declaration fragment from
the legacy module (not under src/): a list of (old address, value) pairs. -/
structure UtxoDeclaration where
  addrs : List (OldAddress × Nat)
deriving DecidableEq

/-- Content hash of a legacy declaration (`decl.hash()`). -/
def UtxoDeclaration.hash (d : UtxoDeclaration) : Nat :=
  d.addrs.foldl (fun h p => natMix (natMix h p.1.root) p.2) 1

/-- A utxo pointer: transaction id, output index and claimed value
(transaction.rs, not under src/; shape fixed by the spec §3). -/
structure UtxoPointer where
  transaction_id : Nat
  output_index : Nat
  value : Nat
deriving DecidableEq

/-- Modelled from the spec (§3): the account identifier carried by an
account input, refinable to a single-account key or reinterpretable as a
multisig identifier (`to_single_account` / `to_multi_account`). -/
inductive AccountIdentifier
  | single (key : Nat)
  | multi (id : Nat)
deriving DecidableEq

/-- Embedding of `AccountIdentifier::to_single_account`: only single-account
identifiers refine to an account key. -/
def AccountIdentifier.to_single_account : AccountIdentifier → Option Nat
  | .single k => some k
  | .multi _ => none

/-- Embedding of `AccountIdentifier::to_multi_account`: unconditional reinterpretation
as a multisig identifier. -/
def AccountIdentifier.to_multi_account : AccountIdentifier → Nat
  | .single k => k
  | .multi k => k

/-- Decoded transaction input (`Input::to_enum`): either a utxo pointer or
an account input with a value. -/
inductive InputEnum
  | utxoInput (u : UtxoPointer)
  | accountInput (id : AccountIdentifier) (value : Nat)
deriving DecidableEq

/-- Embedding of `Input::value`. -/
def InputEnum.value : InputEnum → Nat
  | .utxoInput u => u.value
  | .accountInput _ v => v

/-- The three domain-separated signature payloads of the spec (§6):
`WitnessUtxoData`, `WitnessAccountData`, `WitnessMultisigData`. -/
inductive SignedData
  | utxoData (block0 : Nat) (txid : Nat)
  | accountData (block0 : Nat) (txid : Nat) (counter : Nat)
  | multisigData (block0 : Nat) (txid : Nat) (counter : Nat)
deriving DecidableEq

/-- chain_crypto verification outcome. -/
inductive Verification
  | Success
  | Failed
deriving DecidableEq

/-- Modelled from the spec: an Ed25519 signature of chain_crypto (not under
src/), abstracted as a record of the signing key and the signed payload. -/
structure Sig where
  skey : Nat
  sdata : SignedData
deriving DecidableEq

/-- Signature verification: succeeds exactly when the key and the payload
match what was signed. -/
def Sig.verify (s : Sig) (key : Nat) (d : SignedData) : Verification :=
  if s.skey = key ∧ s.sdata = d then .Success else .Failed

/-- Modelled from the spec (§4.4): a multisig declaration — threshold and
ordered participant keys. -/
structure Declaration where
  threshold : Nat
  owners : List Nat
deriving DecidableEq

/-- Modelled from the spec (§4.4): a multisig signature — a set of
(participant index, signature) pairs. -/
structure MsigSig where
  pairs : List (Nat × Sig)
deriving DecidableEq

/-- Modelled from the spec (§4.4): threshold verification — at least
`threshold` pairs, each verifying against the declared key at its index. -/
def MsigSig.verify (ms : MsigSig) (decl : Declaration) (d : SignedData) : Bool :=
  decide (decl.threshold ≤ ms.pairs.length) &&
    ms.pairs.all (fun p =>
      match decl.owners.get? p.1 with
      | some k => (Sig.verify p.2 k d) == .Success
      | none => false)

/-- Transaction witnesses (transaction.rs, shape fixed by the spec §3). -/
inductive Witness
  | OldUtxo (xpub : Nat) (sig : Sig)
  | Utxo (sig : Sig)
  | Account (sig : Sig)
  | Multisig (msig : MsigSig)
deriving DecidableEq

/-! ## UTxO sub-ledger (modelled from the spec §4.2; utxo.rs is not under src/) -/

/-- Utxo sub-ledger errors (spec §7: NotFound, AlreadyExists). -/
inductive UtxoError
  | AlreadyExists
  | NotFound
deriving DecidableEq

/-- Modelled from the spec (§4.2): the utxo sub-ledger maps
(transaction id, output index) to an output; represented as an
association list transaction id → list of (index, output). -/
structure UtxoLedger (A : Type) where
  entries : List (Nat × List (Nat × Output A))
deriving DecidableEq

/-- Embedding of `utxo::Ledger::new`. -/
def UtxoLedger.new {A : Type} : UtxoLedger A := ⟨[]⟩

/-- Modelled from the spec (§4.2): `add(tx_id, outputs)` inserts and fails
if `tx_id` is already present or any (tx_id, index) collides. -/
def UtxoLedger.add {A : Type} (l : UtxoLedger A) (txid : Nat)
    (outs : List (Nat × Output A)) : Except UtxoError (UtxoLedger A) :=
  if l.entries.any (fun e => e.1 == txid) then .error .AlreadyExists
  else if (outs.map Prod.fst).Nodup then .ok ⟨(txid, outs) :: l.entries⟩
  else .error .AlreadyExists

/-- Remove the output at `idx` from one transaction's output list,
returning it together with the remaining outputs. -/
def removeOut {A : Type} : List (Nat × Output A) → Nat →
    Option (Output A × List (Nat × Output A))
  | [], _ => none
  | (i, o) :: rest, idx =>
    if i = idx then some (o, rest)
    else
      match removeOut rest idx with
      | none => none
      | some (o', rest') => some (o', (i, o) :: rest')

/-- Remove (txid, idx) from the entry list; a transaction whose last
output is removed is fully erased (spec §4.2). -/
def removeEntry {A : Type} : List (Nat × List (Nat × Output A)) → Nat → Nat →
    Option (Output A × List (Nat × List (Nat × Output A)))
  | [], _, _ => none
  | (t, outs) :: rest, txid, idx =>
    if t = txid then
      match removeOut outs idx with
      | none => none
      | some (o, outs') =>
        some (o, if outs'.isEmpty then rest else (t, outs') :: rest)
    else
      match removeEntry rest txid idx with
      | none => none
      | some (o, rest') => some (o, (t, outs) :: rest')

/-- Modelled from the spec (§4.2): `remove(tx_id, index)` returns the
removed output and the updated ledger, failing with NotFound if absent. -/
def UtxoLedger.remove {A : Type} (l : UtxoLedger A) (txid : Nat) (idx : Nat) :
    Except UtxoError (UtxoLedger A × Output A) :=
  match removeEntry l.entries txid idx with
  | none => .error .NotFound
  | some (o, es) => .ok (⟨es⟩, o)

/-- Sum of the values in one transaction's output list (mathematical Nat
sum; used to state conservation). -/
def sumOuts {A : Type} (outs : List (Nat × Output A)) : Nat :=
  (outs.map (fun p => p.2.value)).sum

/-- Total value held by a utxo sub-ledger, as a mathematical Nat sum
(the checked counterpart is used by `validate_utxo_total_value`). -/
def UtxoLedger.totalNat {A : Type} (l : UtxoLedger A) : Nat :=
  (l.entries.map (fun e => sumOuts e.2)).sum

/-! ## Account sub-ledger (modelled from the spec §4.3; account.rs is not under src/) -/

/-- Account sub-ledger errors (spec §4.3/§7). -/
inductive AccountLedgerError
  | AlreadyExists
  | NonExistent
  | InsufficientFunds
  | ValueOverflow
deriving DecidableEq

/-- Per-account state: balance, spending counter (starting at zero) and
optional delegation pool (spec §4.3). -/
structure AccountState where
  balance : Nat
  counter : Nat
  delegation : Option Nat
deriving DecidableEq

/-- Modelled from the spec (§4.3): account id → state, as an association
list with unique keys (`add_account` refuses existing ids). -/
structure AccountLedger where
  entries : List (Nat × AccountState)
deriving DecidableEq

/-- Embedding of `account::Ledger::new`. -/
def AccountLedger.new : AccountLedger := ⟨[]⟩

/-- Embedding of `accounts.exists(&id)`. -/
def AccountLedger.exists' (l : AccountLedger) (id : Nat) : Bool :=
  l.entries.any (fun e => e.1 == id)

/-- Modelled from the spec (§4.3): `add_account(id, v, extra)` fails if the
account already exists; the counter starts at zero. -/
def AccountLedger.add_account (l : AccountLedger) (id : Nat) (v : Nat) :
    Except AccountLedgerError AccountLedger :=
  if l.exists' id then .error .AlreadyExists
  else .ok ⟨(id, ⟨v, 0, none⟩) :: l.entries⟩

/-- Credit `v` to the account `id` in an entry list (checked addition). -/
def creditEntries : List (Nat × AccountState) → Nat → Nat →
    Except AccountLedgerError (List (Nat × AccountState))
  | [], _, _ => .error .NonExistent
  | (i, st) :: rest, id, v =>
    if i = id then
      match value_checked_add st.balance v with
      | some b => .ok ((i, { st with balance := b }) :: rest)
      | none => .error .ValueOverflow
    else
      match creditEntries rest id v with
      | .error e => .error e
      | .ok rest' => .ok ((i, st) :: rest')

/-- Modelled from the spec (§4.3): `add_value(id, v)` fails with
NonExistent when the account is absent. -/
def AccountLedger.add_value (l : AccountLedger) (id : Nat) (v : Nat) :
    Except AccountLedgerError AccountLedger :=
  match creditEntries l.entries id v with
  | .error e => .error e
  | .ok es => .ok ⟨es⟩

/-- Debit `v` from account `id`, incrementing its spending counter
atomically and returning the counter value before the increment. -/
def debitEntries : List (Nat × AccountState) → Nat → Nat →
    Except AccountLedgerError (List (Nat × AccountState) × Nat)
  | [], _, _ => .error .NonExistent
  | (i, st) :: rest, id, v =>
    if i = id then
      if v ≤ st.balance then
        .ok ((i, { st with balance := st.balance - v, counter := st.counter + 1 }) :: rest,
          st.counter)
      else .error .InsufficientFunds
    else
      match debitEntries rest id v with
      | .error e => .error e
      | .ok (rest', c) => .ok ((i, st) :: rest', c)

/-- Modelled from the spec (§4.3): `remove_value(id, v)` fails with
InsufficientFunds when balance < v and NonExistent when absent; returns
the pre-increment spending counter to be bound into the witness data. -/
def AccountLedger.remove_value (l : AccountLedger) (id : Nat) (v : Nat) :
    Except AccountLedgerError (AccountLedger × Nat) :=
  match debitEntries l.entries id v with
  | .error e => .error e
  | .ok (es, c) => .ok (⟨es⟩, c)

/-- Set the delegation target of an entry list. -/
def delegateEntries : List (Nat × AccountState) → Nat → Option Nat →
    Except AccountLedgerError (List (Nat × AccountState))
  | [], _, _ => .error .NonExistent
  | (i, st) :: rest, id, p =>
    if i = id then .ok ((i, { st with delegation := p }) :: rest)
    else
      match delegateEntries rest id p with
      | .error e => .error e
      | .ok rest' => .ok ((i, st) :: rest')

/-- Modelled from the spec (§4.3): `set_delegation(id, pool?)`. -/
def AccountLedger.set_delegation (l : AccountLedger) (id : Nat) (p : Option Nat) :
    Except AccountLedgerError AccountLedger :=
  match delegateEntries l.entries id p with
  | .error e => .error e
  | .ok es => .ok ⟨es⟩

/-- Modelled from the spec (§4.3): checked sum of all balances. -/
def AccountLedger.get_total_value (l : AccountLedger) : Option Nat :=
  value_sum (l.entries.map (fun e => e.2.balance))

/-- Total account balance as a mathematical Nat sum. -/
def AccountLedger.totalNat (l : AccountLedger) : Nat :=
  (l.entries.map (fun e => e.2.balance)).sum

/-! ## Multisig sub-ledger (modelled from the spec §4.4; multisig.rs is not under src/) -/

/-- Multisig sub-ledger errors. -/
inductive MultisigLedgerError
  | AlreadyExists
  | NonExistent
  | InsufficientFunds
  | ValueOverflow
deriving DecidableEq

/-- Per-multisig-account state: balance, counter and the declaration
(threshold plus ordered participant keys). -/
structure MultisigState where
  balance : Nat
  counter : Nat
  declaration : Declaration
deriving DecidableEq

/-- Modelled from the spec (§4.4): multisig id → state, same shape as the
account sub-ledger but carrying a declaration. -/
structure MultisigLedger where
  entries : List (Nat × MultisigState)
deriving DecidableEq

/-- Embedding of `multisig::Ledger::new`. -/
def MultisigLedger.new : MultisigLedger := ⟨[]⟩

/-- Credit `v` to multisig account `id` (checked addition). -/
def mcreditEntries : List (Nat × MultisigState) → Nat → Nat →
    Except MultisigLedgerError (List (Nat × MultisigState))
  | [], _, _ => .error .NonExistent
  | (i, st) :: rest, id, v =>
    if i = id then
      match value_checked_add st.balance v with
      | some b => .ok ((i, { st with balance := b }) :: rest)
      | none => .error .ValueOverflow
    else
      match mcreditEntries rest id v with
      | .error e => .error e
      | .ok rest' => .ok ((i, st) :: rest')

/-- Modelled from the spec (§4.4/§4.10): `add_value` on a multisig account;
it never creates the account (creation needs a declaration fragment). -/
def MultisigLedger.add_value (l : MultisigLedger) (id : Nat) (v : Nat) :
    Except MultisigLedgerError MultisigLedger :=
  match mcreditEntries l.entries id v with
  | .error e => .error e
  | .ok es => .ok ⟨es⟩

/-- Debit `v` from multisig account `id`, incrementing the counter and
returning the declaration plus the pre-increment counter. -/
def mdebitEntries : List (Nat × MultisigState) → Nat → Nat →
    Except MultisigLedgerError (List (Nat × MultisigState) × Declaration × Nat)
  | [], _, _ => .error .NonExistent
  | (i, st) :: rest, id, v =>
    if i = id then
      if v ≤ st.balance then
        .ok ((i, { st with balance := st.balance - v, counter := st.counter + 1 }) :: rest,
          st.declaration, st.counter)
      else .error .InsufficientFunds
    else
      match mdebitEntries rest id v with
      | .error e => .error e
      | .ok (rest', d, c) => .ok ((i, st) :: rest', d, c)

/-- Modelled from the spec (§4.4): `remove_value` returning the new
ledger, the declaration and the pre-increment spending counter. -/
def MultisigLedger.remove_value (l : MultisigLedger) (id : Nat) (v : Nat) :
    Except MultisigLedgerError (MultisigLedger × Declaration × Nat) :=
  match mdebitEntries l.entries id v with
  | .error e => .error e
  | .ok (es, d, c) => .ok (⟨es⟩, d, c)

/-- Modelled from the spec (§4.4): checked sum of all multisig balances. -/
def MultisigLedger.get_total_value (l : MultisigLedger) : Option Nat :=
  value_sum (l.entries.map (fun e => e.2.balance))

/-- Total multisig balance as a mathematical Nat sum. -/
def MultisigLedger.totalNat (l : MultisigLedger) : Nat :=
  (l.entries.map (fun e => e.2.balance)).sum

/-! ## Fees, settings, configuration (fee.rs, config.rs, setting.rs are not under src/) -/

/-- Embedding of `LinearFee` coefficients (constant, per-input/output coefficient,
per-certificate coefficient); spec §4.5/§6. -/
structure LinearFee where
  constant : Nat
  coefficient : Nat
  certificate : Nat
deriving DecidableEq

/-- Modelled from the spec (§6): linear fee
`constant + coefficient·(|inputs|+|outputs|) + certificate·|certs|`,
checked against the 64-bit bound; `none` models `FeeCalculationError`. -/
def LinearFee.calculate (f : LinearFee) (nin nout ncert : Nat) : Option Nat :=
  let t := f.constant + f.coefficient * (nin + nout) + f.certificate * ncert
  if t < U64 then some t else none

/-- Modelled from the spec (§4.5/§4.13): the configuration parameters the
ledger bootstrap and settings fold recognise (config.rs is not under src/). -/
inductive ConfigParam
  | Block0Date (d : Nat)
  | Discrimination (d : Mockchain.Discrimination)
  | ConsensusVersion (v : Nat)
  | SlotsPerEpoch (n : Nat)
  | SlotDuration (n : Nat)
  | EpochStabilityDepth (n : Nat)
  | KESUpdateSpeed (n : Nat)
  | AddBftLeader (k : Nat)
  | LinearFee (f : Mockchain.LinearFee)
  | ProposalExpiration (n : Nat)
deriving DecidableEq

/-- The time era retained by the settings (chain-time is not under src/);
only its defining quantities are kept. -/
structure TimeEra where
  slot_duration : Nat
  slots_per_epoch : Nat
deriving DecidableEq

/-- Modelled from the spec (§4.5): the active settings. -/
structure Settings where
  linear_fees : LinearFee
  consensus_version : Nat
  bft_leaders : List Nat
  proposal_expiration : Nat
  epoch_stability_depth : Nat
  consensus_nonce : Nat
  era : TimeEra
deriving DecidableEq

/-- Embedding of `setting::Settings::new(era)`: defaults before any config is applied. -/
def Settings.new (era : TimeEra) : Settings :=
  { linear_fees := ⟨0, 0, 0⟩
    consensus_version := 0
    bft_leaders := []
    proposal_expiration := 100
    epoch_stability_depth := 0
    consensus_nonce := 0
    era := era }

/-- Fold one configuration parameter into the settings (spec §4.5);
parameters that do not concern the settings are ignored. -/
def Settings.applyOne (s : Settings) : ConfigParam → Settings
  | .ConsensusVersion v => { s with consensus_version := v }
  | .AddBftLeader k => { s with bft_leaders := s.bft_leaders ++ [k] }
  | .LinearFee f => { s with linear_fees := f }
  | .ProposalExpiration n => { s with proposal_expiration := n }
  | .EpochStabilityDepth n => { s with epoch_stability_depth := n }
  | _ => s

/-- Modelled from the spec (§4.5): `Settings::apply` folds a list of
configuration parameters into a new settings value. -/
def Settings.apply (s : Settings) (ps : List ConfigParam) : Settings :=
  ps.foldl Settings.applyOne s

/-! ## Update sub-protocol (modelled from the spec §4.6; update.rs is not under src/) -/

/-- Governance errors (spec §7). -/
inductive UpdateError
  | ProposalAlreadyPresent
  | VoterNotALeader
  | AlreadyVoted
  | NoSuchProposal
  | BadProposalSignature
deriving DecidableEq

/-- Block date: epoch and slot (block/mod.rs is not under src/; the spec
fixes it as (epoch, slot) with lexicographic order). -/
structure BlockDate where
  epoch : Nat
  slot_id : Nat
deriving DecidableEq

/-- Embedding of `BlockDate::first()`. -/
def BlockDate.first : BlockDate := ⟨0, 0⟩

/-- Lexicographic `≤` on block dates (the derived `PartialOrd`). -/
def BlockDate.le (a b : BlockDate) : Prop :=
  a.epoch < b.epoch ∨ (a.epoch = b.epoch ∧ a.slot_id ≤ b.slot_id)

instance (a b : BlockDate) : Decidable (BlockDate.le a b) := by
  unfold BlockDate.le
  infer_instance

/-- An update proposal: the configuration changes it carries. -/
structure UpdateProposal where
  changes : List ConfigParam
deriving DecidableEq

/-- A signed update proposal: proposal, proposer id, signature validity
(crypto abstracted to a recorded outcome). -/
structure SignedUpdateProposal where
  proposal : UpdateProposal
  proposer_id : Nat
  sig_ok : Bool
deriving DecidableEq

/-- A signed update vote. -/
structure SignedUpdateVote where
  proposal_id : Nat
  voter_id : Nat
  sig_ok : Bool
deriving DecidableEq

/-- One pending proposal: id, content, recorded votes, submission date. -/
structure ProposalEntry where
  id : Nat
  proposal : UpdateProposal
  proposer_id : Nat
  votes : List Nat
  submitted : BlockDate
deriving DecidableEq

/-- Modelled from the spec (§4.6): the update governance state. -/
structure UpdateState where
  proposals : List ProposalEntry
deriving DecidableEq

/-- Embedding of `update::UpdateState::new`. -/
def UpdateState.new : UpdateState := ⟨[]⟩

/-- Modelled from the spec (§4.6): `apply_proposal` rejects a bad
signature, a proposer that is not a BFT leader, and an id already
present. -/
def UpdateState.apply_proposal (u : UpdateState) (pid : Nat)
    (p : SignedUpdateProposal) (s : Settings) (cur : BlockDate) :
    Except UpdateError UpdateState :=
  if p.sig_ok = false then .error .BadProposalSignature
  else if (s.bft_leaders.contains p.proposer_id) = false then .error .VoterNotALeader
  else if u.proposals.any (fun e => e.id == pid) then .error .ProposalAlreadyPresent
  else .ok ⟨u.proposals ++ [⟨pid, p.proposal, p.proposer_id, [], cur⟩]⟩

/-- Modelled from the spec (§4.6): `apply_vote` rejects an absent target,
a non-leader voter, and a duplicate vote. -/
def UpdateState.apply_vote (u : UpdateState) (v : SignedUpdateVote)
    (s : Settings) : Except UpdateError UpdateState :=
  if v.sig_ok = false then .error .BadProposalSignature
  else if (s.bft_leaders.contains v.voter_id) = false then .error .VoterNotALeader
  else
    match u.proposals.find? (fun e => e.id == v.proposal_id) with
    | none => .error .NoSuchProposal
    | some e =>
      if e.votes.contains v.voter_id then .error .AlreadyVoted
      else
        .ok ⟨u.proposals.map (fun e' =>
          if e'.id == v.proposal_id then { e' with votes := e'.votes ++ [v.voter_id] }
          else e')⟩

/-- A proposal is expired when its age in epochs exceeds the proposal
expiration window (spec §4.6). -/
def proposalExpired (s : Settings) (e : ProposalEntry) (newDate : BlockDate) : Bool :=
  decide (e.submitted.epoch + s.proposal_expiration < newDate.epoch)

/-- A proposal is adopted when its vote set is a strict majority of the
current BFT leader set (spec §4.6). -/
def proposalAdopted (s : Settings) (e : ProposalEntry) : Bool :=
  decide (s.bft_leaders.length < 2 * e.votes.length)

/-- Insertion sort of proposals by ascending id — adoption ordering
(spec §4.6). -/
def insertById (e : ProposalEntry) : List ProposalEntry → List ProposalEntry
  | [] => [e]
  | x :: xs => if e.id ≤ x.id then e :: x :: xs else x :: insertById e xs

/-- Sort a proposal list by ascending id. -/
def sortById : List ProposalEntry → List ProposalEntry
  | [] => []
  | x :: xs => insertById x (sortById xs)

/-- Modelled from the spec (§4.6): `process_proposals` discards expired
proposals, adopts every proposal with a strict leader majority (folding
its changes into the settings, in ascending proposal id order) and keeps
the rest pending. -/
def UpdateState.process_proposals (u : UpdateState) (s : Settings)
    (_oldDate newDate : BlockDate) : Except UpdateError (UpdateState × Settings) :=
  let live := u.proposals.filter (fun e => (proposalExpired s e newDate) = false)
  let adopted := sortById (live.filter (fun e => proposalAdopted s e))
  let remaining := live.filter (fun e => (proposalAdopted s e) = false)
  let s' := adopted.foldl (fun acc e => acc.apply e.proposal.changes) s
  .ok (⟨remaining⟩, s')

/-! ## Delegation and certificates (modelled from the spec §4.7; the
delegation and certificate modules are not under src/) -/

/-- Delegation errors (spec §7). -/
inductive DelegationError
  | StakeDelegationPoolKeyIsInvalid (pool : Nat)
  | StakeDelegationAccountIsInvalid
  | StakePoolAlreadyExists (pool : Nat)
  | StakePoolDoesNotExist (pool : Nat)
deriving DecidableEq

/-- Modelled from the spec (§4.7): the stake-pool registry, reduced to the
set of registered pool ids. -/
structure DelegationState where
  pools : List Nat
deriving DecidableEq

/-- Embedding of `DelegationState::new`. -/
def DelegationState.new : DelegationState := ⟨[]⟩

/-- Embedding of `stake_pool_exists`. -/
def DelegationState.stake_pool_exists (d : DelegationState) (pool : Nat) : Bool :=
  d.pools.contains pool

/-- Modelled from the spec (§4.7): registration fails if the pool id is
already registered. -/
def DelegationState.register_stake_pool (d : DelegationState) (pool : Nat) :
    Except DelegationError DelegationState :=
  if d.pools.contains pool then .error (.StakePoolAlreadyExists pool)
  else .ok ⟨d.pools ++ [pool]⟩

/-- Modelled from the spec (§4.7): deregistration fails if absent. -/
def DelegationState.deregister_stake_pool (d : DelegationState) (pool : Nat) :
    Except DelegationError DelegationState :=
  if d.pools.contains pool then .ok ⟨d.pools.filter (fun p => p != pool)⟩
  else .error (.StakePoolDoesNotExist pool)

/-- Certificate payloads (certificate.rs is not under src/; shape fixed by
ledger.rs `apply_certificate_content` and the spec §4.7): registration
carries its computed pool id. -/
inductive CertificateContent
  | StakeDelegation (stake_key_id : AccountIdentifier) (pool_id : Nat)
  | StakePoolRegistration (pool_id : Nat)
  | StakePoolRetirement (pool_id : Nat)
deriving DecidableEq

/-- A certificate: content plus its own signature validity (crypto
abstracted to a recorded outcome). -/
structure Certificate where
  content : CertificateContent
  sig_ok : Bool
deriving DecidableEq

/-- Embedding of `Certificate::verify`. -/
def Certificate.verify (c : Certificate) : Verification :=
  if c.sig_ok then .Success else .Failed

/-! ## Transactions and messages -/

/-- A transaction: inputs, outputs, extra payload (`NoExtra` is `Unit`). -/
structure Transaction (A E : Type) where
  inputs : List InputEnum
  outputs : List (Output A)
  extra : E
deriving DecidableEq

/-- An authenticated transaction: the transaction plus its witnesses. -/
structure AuthenticatedTransaction (A E : Type) where
  transaction : Transaction A E
  witnesses : List Witness
deriving DecidableEq

/-- Deterministic content encoding of a kind, for transaction ids. -/
def encodeKind : Kind → Nat
  | .Single k => natMix 0 k
  | .Group a b => natMix 1 (natMix a b)
  | .Account k => natMix 2 k
  | .Multisig k => natMix 3 k

/-- Deterministic content encoding of an address. -/
def encodeAddress (a : Address) : Nat :=
  natMix (match a.discrim with | .Production => 0 | .Test => 1) (encodeKind a.kind)

/-- Deterministic content encoding of an input. -/
def encodeInput : InputEnum → Nat
  | .utxoInput u => natMix 0 (natMix u.transaction_id (natMix u.output_index u.value))
  | .accountInput id v =>
    natMix 1 (natMix (match id with | .single k => natMix 0 k | .multi k => natMix 1 k) v)

/-- Embedding of `transaction.hash()`: a deterministic content hash over inputs and
outputs standing in for the Blake2b transaction id. -/
def Transaction.hash {E : Type} (t : Transaction Address E) : Nat :=
  let h1 := t.inputs.foldl (fun h i => natMix h (encodeInput i)) 2
  t.outputs.foldl (fun h o => natMix h (natMix (encodeAddress o.address) o.value)) h1

/-- Fragments (`Message` in message/mod.rs, shape fixed by ledger.rs and
the spec §3). -/
inductive Message
  | Initial (params : List ConfigParam)
  | OldUtxoDeclaration (decl : UtxoDeclaration)
  | Transaction (tx : AuthenticatedTransaction Address Unit)
  | Certificate (tx : AuthenticatedTransaction Address Certificate)
  | UpdateProposal (p : SignedUpdateProposal)
  | UpdateVote (v : SignedUpdateVote)
deriving DecidableEq

/-- Deterministic content encoding of a configuration parameter, for
fragment ids. -/
def encodeConfigParam : ConfigParam → Nat
  | .Block0Date d => natMix 0 d
  | .Discrimination d => natMix 1 (match d with | .Production => 0 | .Test => 1)
  | .ConsensusVersion v => natMix 2 v
  | .SlotsPerEpoch n => natMix 3 n
  | .SlotDuration n => natMix 4 n
  | .EpochStabilityDepth n => natMix 5 n
  | .KESUpdateSpeed n => natMix 6 n
  | .AddBftLeader k => natMix 7 k
  | .LinearFee f => natMix 8 (natMix f.constant (natMix f.coefficient f.certificate))
  | .ProposalExpiration n => natMix 9 n

/-- Embedding of `content.id()`: a deterministic fragment id; the ledger only uses it
for update-proposal fragments. -/
def Message.id : Message → Nat
  | .UpdateProposal p =>
    natMix 4 (natMix p.proposer_id
      (p.proposal.changes.foldl (fun h c => natMix h (encodeConfigParam c)) 3))
  | .Initial ps => natMix 0 (ps.foldl (fun h c => natMix h (encodeConfigParam c)) 3)
  | .OldUtxoDeclaration d => natMix 1 d.hash
  | .Transaction tx => natMix 2 tx.transaction.hash
  | .Certificate tx => natMix 3 tx.transaction.hash
  | .UpdateVote v => natMix 5 (natMix v.proposal_id v.voter_id)

/-! ## The ledger proper (ledger.rs) -/

/-- Embedding of `LedgerStaticParameters` (ledger.rs lines 22-28). -/
structure LedgerStaticParameters where
  block0_initial_hash : Nat
  block0_start_time : Nat
  discrimination : Discrimination
  kes_update_speed : Nat
deriving DecidableEq

/-- Embedding of `LedgerParameters` (ledger.rs lines 30-34). -/
structure LedgerParameters where
  fees : LinearFee
deriving DecidableEq

/-- Limits (ledger.rs lines 36-39). -/
def MAX_TRANSACTION_INPUTS_COUNT : Nat := 256

/-- Limit on outputs per transaction (ledger.rs line 38). -/
def MAX_TRANSACTION_OUTPUTS_COUNT : Nat := 254

/-- Limit on witnesses per transaction (ledger.rs line 39). -/
def MAX_TRANSACTION_WITNESSES_COUNT : Nat := 256

/-- Embedding of `Block0Error` (ledger.rs lines 62-88). -/
inductive Block0Error
  | OnlyMessageReceived
  | TransactionHasInput
  | TransactionHasOutput
  | TransactionHasWitnesses
  | InitialMessageMissing
  | InitialMessageMany
  | InitialMessageDuplicateBlock0Date
  | InitialMessageDuplicateDiscrimination
  | InitialMessageDuplicateConsensusVersion
  | InitialMessageDuplicateSlotDuration
  | InitialMessageDuplicateEpochStabilityDepth
  | InitialMessageDuplicatePraosActiveSlotsCoeff
  | InitialMessageNoDate
  | InitialMessageNoSlotDuration
  | InitialMessageNoSlotsPerEpoch
  | InitialMessageNoDiscrimination
  | InitialMessageNoConsensusVersion
  | InitialMessageNoConsensusLeaderId
  | InitialMessageNoPraosActiveSlotsCoeff
  | InitialMessageNoKesUpdateSpeed
  | UtxoTotalValueTooBig
  | HasUpdateProposal
  | HasUpdateVote
deriving DecidableEq

/-- Embedding of `Error` (ledger.rs lines 93-128). -/
inductive LedgerError
  | Config
  | NotEnoughSignatures (actual : Nat) (expected : Nat)
  | UtxoValueNotMatching (expected : Nat) (value : Nat)
  | UtxoError (source : Mockchain.UtxoError)
  | UtxoInvalidSignature (utxo : UtxoPointer) (output : Output Address) (witness : Witness)
  | OldUtxoInvalidSignature (utxo : UtxoPointer) (output : Output OldAddress) (witness : Witness)
  | OldUtxoInvalidPublicKey (utxo : UtxoPointer) (output : Output OldAddress) (witness : Witness)
  | AccountInvalidSignature (account : Nat) (witness : Witness)
  | MultisigInvalidSignature (multisig : Nat) (witness : Witness)
  | TransactionHasTooManyInputs (expected : Nat) (actual : Nat)
  | TransactionHasTooManyOutputs (expected : Nat) (actual : Nat)
  | TransactionHasTooManyWitnesses (expected : Nat) (actual : Nat)
  | FeeCalculationError (error : ValueError)
  | UtxoInputsTotal (error : ValueError)
  | UtxoOutputsTotal (error : ValueError)
  | Block0 (source : Block0Error)
  | Account (source : AccountLedgerError)
  | Multisig (source : MultisigLedgerError)
  | NotBalanced (inputs : Nat) (outputs : Nat)
  | ZeroOutput (output : Output Address)
  | OutputGroupInvalid (output : Output Address)
  | Delegation (source : DelegationError)
  | AccountIdentifierInvalid
  | InvalidDiscrimination
  | ExpectingAccountWitness
  | ExpectingUtxoWitness
  | ExpectingInitialMessage
  | CertificateInvalidSignature
  | Update (source : UpdateError)
  | WrongChainLength (actual : Nat) (expected : Nat)
  | NonMonotonicDate (block_date : BlockDate) (chain_date : BlockDate)
deriving DecidableEq

/-- Outcome of running a piece of the Rust ledger code: a value, a
returned `Err`, or a panic (a failed `assert!` or `unwrap`). Panic is
kept distinct from the error type because the source's error enum does
not contain it. -/
inductive R (α : Type)
  | ok (a : α)
  | err (e : LedgerError)
  | panic
deriving DecidableEq

/-- Whether an outcome is a normal value. -/
def R.isOk {α : Type} : R α → Bool
  | .ok _ => true
  | _ => false

/-- Sequencing of outcomes: the `?` operator of the source. -/
def R.bind {α β : Type} : R α → (α → R β) → R β
  | .ok a, f => f a
  | .err e, _ => .err e
  | .panic, _ => .panic

@[simp] theorem R.ok_bind {α β : Type} (a : α) (f : α → R β) :
    (R.ok a).bind f = f a := rfl

@[simp] theorem R.err_bind {α β : Type} (e : LedgerError) (f : α → R β) :
    (R.err e).bind f = R.err e := rfl

@[simp] theorem R.panic_bind {α β : Type} (f : α → R β) :
    (R.panic : R α).bind f = R.panic := rfl

/-- Inversion of a successful bind. -/
@[simp] theorem R.bind_ok_iff {α β : Type} (r : R α) (f : α → R β) (b : β) :
    r.bind f = .ok b ↔ ∃ a, r = .ok a ∧ f a = .ok b := by
  cases r <;> simp [R.bind]

/-- Inversion of a panicking bind. -/
theorem R.bind_panic_iff {α β : Type} (r : R α) (f : α → R β) :
    r.bind f = .panic ↔ r = .panic ∨ ∃ a, r = .ok a ∧ f a = .panic := by
  cases r <;> simp [R.bind]

/-- Lift a utxo sub-ledger result into the ledger error type
(the `From<utxo::Error>` conversion used by `?`). -/
def liftUtxo {α : Type} : Except UtxoError α → R α
  | .ok a => .ok a
  | .error e => .err (.UtxoError e)

/-- Lift an account sub-ledger result (`From<account::LedgerError>`). -/
def liftAccount {α : Type} : Except AccountLedgerError α → R α
  | .ok a => .ok a
  | .error e => .err (.Account e)

/-- Lift a multisig sub-ledger result (`From<multisig::LedgerError>`). -/
def liftMultisig {α : Type} : Except MultisigLedgerError α → R α
  | .ok a => .ok a
  | .error e => .err (.Multisig e)

@[simp] theorem liftUtxo_ok_iff {α : Type} (x : Except UtxoError α) (a : α) :
    liftUtxo x = R.ok a ↔ x = .ok a := by
  cases x <;> simp [liftUtxo]

@[simp] theorem liftAccount_ok_iff {α : Type} (x : Except AccountLedgerError α) (a : α) :
    liftAccount x = R.ok a ↔ x = .ok a := by
  cases x <;> simp [liftAccount]

@[simp] theorem liftMultisig_ok_iff {α : Type} (x : Except MultisigLedgerError α) (a : α) :
    liftMultisig x = R.ok a ↔ x = .ok a := by
  cases x <;> simp [liftMultisig]

/-- Lift an update sub-protocol result (`From<update::Error>`). -/
def liftUpdate {α : Type} : Except UpdateError α → R α
  | .ok a => .ok a
  | .error e => .err (.Update e)

/-- Lift a delegation result (`From<DelegationError>`). -/
def liftDelegation {α : Type} : Except DelegationError α → R α
  | .ok a => .ok a
  | .error e => .err (.Delegation e)

@[simp] theorem liftUpdate_ok_iff {α : Type} (x : Except UpdateError α) (a : α) :
    liftUpdate x = R.ok a ↔ x = .ok a := by
  cases x <;> simp [liftUpdate]

@[simp] theorem liftDelegation_ok_iff {α : Type} (x : Except DelegationError α) (a : α) :
    liftDelegation x = R.ok a ↔ x = .ok a := by
  cases x <;> simp [liftDelegation]

/-- Embedding of `HeaderContentEvalContext`: the header metadata `apply_block`
consumes (block/mod.rs is not under src/; fields fixed by ledger.rs usage). -/
structure HeaderContentEvalContext where
  block_date : BlockDate
  chain_length : Nat
  nonce : Option Nat
deriving DecidableEq

/-- Embedding of `Ledger` (ledger.rs lines 48-60). -/
structure Ledger where
  utxos : UtxoLedger Address
  oldutxos : UtxoLedger OldAddress
  accounts : AccountLedger
  settings : Settings
  updates : UpdateState
  multisig : MultisigLedger
  delegation : DelegationState
  static_params : LedgerStaticParameters
  date : BlockDate
  chain_length : Nat
deriving DecidableEq

/-- Embedding of `Ledger::empty` (ledger.rs lines 131-144). -/
def Ledger.empty (settings : Settings) (static_params : LedgerStaticParameters) : Ledger :=
  { utxos := UtxoLedger.new
    oldutxos := UtxoLedger.new
    accounts := AccountLedger.new
    settings := settings
    updates := UpdateState.new
    multisig := MultisigLedger.new
    delegation := DelegationState.new
    static_params := static_params
    date := BlockDate.first
    chain_length := 0 }

/-- Embedding of `apply_old_declaration` (ledger.rs lines 564-580): note the
`assert!(decl.addrs.len() < 255)`, modelled as a panic outcome. -/
def apply_old_declaration (utxos : UtxoLedger OldAddress) (decl : UtxoDeclaration) :
    R (UtxoLedger OldAddress) :=
  if decl.addrs.length < 255 then
    let outputs := (List.range decl.addrs.length).zip decl.addrs |>.map
      (fun p => (p.1 % 256, Output.mk p.2.1 p.2.2))
    liftUtxo (utxos.add decl.hash outputs)
  else .panic

/-- The body of the output loop of `internal_apply_transaction_output`
(ledger.rs lines 683-723): walks the outputs in declared order carrying
the running index, the accumulated new utxos and the account/multisig
ledgers. -/
def apply_outputs_loop (static_params : LedgerStaticParameters)
    (accounts : AccountLedger) (multisig : MultisigLedger) (index : Nat)
    (acc : List (Nat × Output Address)) :
    List (Output Address) →
    R (List (Nat × Output Address) × AccountLedger × MultisigLedger)
  | [] => .ok (acc, accounts, multisig)
  | output :: rest =>
    if output.value = 0 then .err (.ZeroOutput output)
    else if output.address.discrimination ≠ static_params.discrimination then
      .err .InvalidDiscrimination
    else
      match output.address.kind with
      | .Single _ =>
        apply_outputs_loop static_params accounts multisig (index + 1)
          (acc ++ [(index % 256, output)]) rest
      | .Group _ account_id =>
        if accounts.exists' account_id then
          apply_outputs_loop static_params accounts multisig (index + 1)
            (acc ++ [(index % 256, output)]) rest
        else
          (liftAccount (accounts.add_account account_id 0)).bind fun accounts' =>
            apply_outputs_loop static_params accounts' multisig (index + 1)
              (acc ++ [(index % 256, output)]) rest
      | .Account identifier =>
        match accounts.add_value identifier output.value with
        | .ok accounts' =>
          apply_outputs_loop static_params accounts' multisig (index + 1) acc rest
        | .error .NonExistent =>
          (liftAccount (accounts.add_account identifier output.value)).bind
            fun accounts' =>
              apply_outputs_loop static_params accounts' multisig (index + 1) acc rest
        | .error e => .err (.Account e)
      | .Multisig identifier =>
        (liftMultisig (multisig.add_value identifier output.value)).bind fun multisig' =>
          apply_outputs_loop static_params accounts multisig' (index + 1) acc rest

/-- Embedding of `internal_apply_transaction_output` (ledger.rs lines 674-727). -/
def internal_apply_transaction_output (utxos : UtxoLedger Address)
    (accounts : AccountLedger) (multisig : MultisigLedger)
    (static_params : LedgerStaticParameters) (_dyn_params : LedgerParameters)
    (transaction_id : Nat) (outputs : List (Output Address)) :
    R (UtxoLedger Address × AccountLedger × MultisigLedger) :=
  (apply_outputs_loop static_params accounts multisig 0 [] outputs).bind
    fun r =>
      (liftUtxo (utxos.add transaction_id r.1)).bind fun utxos' =>
        .ok (utxos', r.2.1, r.2.2)

/-- Embedding of `input_utxo_verify` (ledger.rs lines 729-800). The `unwrap` on
`address.public_key()` is modelled as a panic when the key is absent. -/
def input_utxo_verify (ledger : Ledger) (transaction_id : Nat)
    (utxo : UtxoPointer) (witness : Witness) : R Ledger :=
  match witness with
  | .Account _ => .err .ExpectingUtxoWitness
  | .Multisig _ => .err .ExpectingUtxoWitness
  | .OldUtxo xpub signature =>
    (liftUtxo (ledger.oldutxos.remove utxo.transaction_id utxo.output_index)).bind
      fun r =>
        let old_utxos := r.1
        let associated_output := r.2
        let ledger := { ledger with oldutxos := old_utxos }
        if utxo.value ≠ associated_output.value then
          .err (.UtxoValueNotMatching utxo.value associated_output.value)
        else if oldaddress_from_xpub associated_output.address xpub then
          .err (.OldUtxoInvalidPublicKey utxo associated_output witness)
        else
          let data_to_verify :=
            SignedData.utxoData ledger.static_params.block0_initial_hash transaction_id
          if signature.verify xpub data_to_verify = .Failed then
            .err (.OldUtxoInvalidSignature utxo associated_output witness)
          else .ok ledger
  | .Utxo signature =>
    (liftUtxo (ledger.utxos.remove utxo.transaction_id utxo.output_index)).bind
      fun r =>
        let new_utxos := r.1
        let associated_output := r.2
        let ledger := { ledger with utxos := new_utxos }
        if utxo.value ≠ associated_output.value then
          .err (.UtxoValueNotMatching utxo.value associated_output.value)
        else
          match associated_output.address.public_key with
          | none => .panic
          | some pk =>
            let data_to_verify :=
              SignedData.utxoData ledger.static_params.block0_initial_hash transaction_id
            if signature.verify pk data_to_verify = .Failed then
              .err (.UtxoInvalidSignature utxo associated_output witness)
            else .ok ledger

/-- Embedding of `input_account_verify` (ledger.rs lines 802-855). -/
def input_account_verify (ledger : AccountLedger) (mledger : MultisigLedger)
    (block0_hash : Nat) (transaction_id : Nat) (account : AccountIdentifier)
    (value : Nat) (witness : Witness) : R (AccountLedger × MultisigLedger) :=
  match witness with
  | .OldUtxo _ _ => .err .ExpectingAccountWitness
  | .Utxo _ => .err .ExpectingAccountWitness
  | .Account sig =>
    match account.to_single_account with
    | none => .err .AccountIdentifierInvalid
    | some account =>
      (liftAccount (ledger.remove_value account value)).bind fun r =>
        let new_ledger := r.1
        let spending_counter := r.2
        let tidsc := SignedData.accountData block0_hash transaction_id spending_counter
        if sig.verify account tidsc = .Failed then
          .err (.AccountInvalidSignature account witness)
        else .ok (new_ledger, mledger)
  | .Multisig msignature =>
    let account := account.to_multi_account
    (liftMultisig (mledger.remove_value account value)).bind fun r =>
      let new_ledger := r.1
      let declaration := r.2.1
      let spending_counter := r.2.2
      let data_to_verify :=
        SignedData.multisigData block0_hash transaction_id spending_counter
      if msignature.verify declaration data_to_verify ≠ true then
        .err (.MultisigInvalidSignature account witness)
      else .ok (ledger, new_ledger)

/-- The input/witness loop of `internal_apply_transaction` (ledger.rs
lines 624-643): each pair is verified in declared order, consuming the
input. -/
def process_inputs (ledger : Ledger) (transaction_id : Nat) :
    List (InputEnum × Witness) → R Ledger
  | [] => .ok ledger
  | (input, witness) :: rest =>
    match input with
    | .utxoInput utxo =>
      (input_utxo_verify ledger transaction_id utxo witness).bind fun ledger' =>
        process_inputs ledger' transaction_id rest
    | .accountInput account_id value =>
      (input_account_verify ledger.accounts ledger.multisig
          ledger.static_params.block0_initial_hash transaction_id account_id value
          witness).bind fun r =>
        process_inputs { ledger with accounts := r.1, multisig := r.2 }
          transaction_id rest

/-- Embedding of `internal_apply_transaction` (ledger.rs lines 583-672). -/
def internal_apply_transaction (ledger : Ledger) (dyn_params : LedgerParameters)
    (transaction_id : Nat) (inputs : List InputEnum) (outputs : List (Output Address))
    (witnesses : List Witness) (fee : Nat) : R Ledger :=
  if MAX_TRANSACTION_INPUTS_COUNT < inputs.length then
    .err (.TransactionHasTooManyInputs MAX_TRANSACTION_INPUTS_COUNT inputs.length)
  else if MAX_TRANSACTION_OUTPUTS_COUNT < outputs.length then
    .err (.TransactionHasTooManyOutputs MAX_TRANSACTION_OUTPUTS_COUNT outputs.length)
  else if MAX_TRANSACTION_WITNESSES_COUNT < witnesses.length then
    .err (.TransactionHasTooManyWitnesses MAX_TRANSACTION_WITNESSES_COUNT witnesses.length)
  else if inputs.length ≠ witnesses.length then
    .err (.NotEnoughSignatures witnesses.length inputs.length)
  else
    (process_inputs ledger transaction_id (inputs.zip witnesses)).bind fun ledger =>
      match value_sum (inputs.map InputEnum.value) with
      | none => .err (.UtxoInputsTotal .Overflow)
      | some total_input =>
        match value_sum (outputs.map (fun o => o.value) ++ [fee]) with
        | none => .err (.UtxoOutputsTotal .Overflow)
        | some total_output =>
          if total_input ≠ total_output then
            .err (.NotBalanced total_input total_output)
          else
            (internal_apply_transaction_output ledger.utxos ledger.accounts
                ledger.multisig ledger.static_params dyn_params transaction_id
                outputs).bind fun r =>
              .ok { ledger with
                utxos := r.1, accounts := r.2.1, multisig := r.2.2 }

/-- Embedding of `Ledger::apply_transaction` (ledger.rs lines 400-427);
`ncert` is 1 for a certificate-bearing transaction, matching the fee
algorithm instance used at that extra type. -/
def Ledger.apply_transaction {E : Type} (l : Ledger)
    (signed_tx : AuthenticatedTransaction Address E) (ncert : Nat)
    (dyn_params : LedgerParameters) : R (Ledger × Nat) :=
  let transaction_id := signed_tx.transaction.hash
  match dyn_params.fees.calculate signed_tx.transaction.inputs.length
      signed_tx.transaction.outputs.length ncert with
  | none => .err (.FeeCalculationError .Overflow)
  | some fee =>
    (internal_apply_transaction l dyn_params transaction_id
        signed_tx.transaction.inputs signed_tx.transaction.outputs
        signed_tx.witnesses fee).bind fun l' => .ok (l', fee)

/-- Embedding of `Ledger::apply_update_proposal` (ledger.rs lines 434-444). -/
def Ledger.apply_update_proposal (l : Ledger) (proposal_id : Nat)
    (proposal : SignedUpdateProposal) (cur_date : BlockDate) : R Ledger :=
  (liftUpdate (l.updates.apply_proposal proposal_id proposal l.settings cur_date)).bind
    fun u => .ok { l with updates := u }

/-- Embedding of `Ledger::apply_update_vote` (ledger.rs lines 446-449). -/
def Ledger.apply_update_vote (l : Ledger) (vote : SignedUpdateVote) : R Ledger :=
  (liftUpdate (l.updates.apply_vote vote l.settings)).bind
    fun u => .ok { l with updates := u }

/-- Embedding of `Ledger::apply_certificate_content` (ledger.rs lines 451-483). -/
def Ledger.apply_certificate_content (l : Ledger) (certificate : Certificate) : R Ledger :=
  match certificate.content with
  | .StakeDelegation stake_key_id pool_id =>
    if (l.delegation.stake_pool_exists pool_id) = false then
      .err (.Delegation (.StakeDelegationPoolKeyIsInvalid pool_id))
    else
      match stake_key_id.to_single_account with
      | some account_key =>
        (liftAccount (l.accounts.set_delegation account_key (some pool_id))).bind
          fun accounts' => .ok { l with accounts := accounts' }
      | none => .err (.Delegation .StakeDelegationAccountIsInvalid)
  | .StakePoolRegistration pool_id =>
    (liftDelegation (l.delegation.register_stake_pool pool_id)).bind
      fun d => .ok { l with delegation := d }
  | .StakePoolRetirement pool_id =>
    (liftDelegation (l.delegation.deregister_stake_pool pool_id)).bind
      fun d => .ok { l with delegation := d }

/-- Embedding of `Ledger::apply_certificate` (ledger.rs lines 485-499). -/
def Ledger.apply_certificate (l : Ledger)
    (auth_cert : AuthenticatedTransaction Address Certificate)
    (dyn_params : LedgerParameters) : R (Ledger × Nat) :=
  if auth_cert.transaction.extra.verify = .Failed then
    .err .CertificateInvalidSignature
  else
    (l.apply_transaction auth_cert 1 dyn_params).bind fun r =>
      (r.1.apply_certificate_content auth_cert.transaction.extra).bind fun l' =>
        .ok (l', r.2)

/-- Embedding of `Ledger::apply_fragment` (ledger.rs lines 356-398). -/
def Ledger.apply_fragment (l : Ledger) (ledger_params : LedgerParameters)
    (content : Message) (metadata : HeaderContentEvalContext) : R Ledger :=
  match content with
  | .Initial _ => .err (.Block0 .OnlyMessageReceived)
  | .OldUtxoDeclaration _ => .err (.Block0 .OnlyMessageReceived)
  | .Transaction authenticated_tx =>
    (l.apply_transaction authenticated_tx 0 ledger_params).bind fun r => .ok r.1
  | .UpdateProposal update_proposal =>
    l.apply_update_proposal (Message.id content) update_proposal metadata.block_date
  | .UpdateVote vote => l.apply_update_vote vote
  | .Certificate authenticated_cert_tx =>
    (l.apply_certificate authenticated_cert_tx ledger_params).bind fun r => .ok r.1

/-- The fragment loop of `apply_block` (ledger.rs lines 339-341). -/
def apply_fragments (ledger_params : LedgerParameters)
    (metadata : HeaderContentEvalContext) : Ledger → List Message → R Ledger
  | l, [] => .ok l
  | l, c :: cs =>
    (l.apply_fragment ledger_params c metadata).bind fun l' =>
      apply_fragments ledger_params metadata l' cs

/-- The closing statements of `apply_block` (ledger.rs lines 343-347):
set the date to the header's block date and, when the header carries a
nonce contribution, mix it into the consensus nonce. -/
def finish_block (metadata : HeaderContentEvalContext) (new_ledger : Ledger) : Ledger :=
  let new_ledger := { new_ledger with date := metadata.block_date }
  match metadata.nonce with
  | some n =>
    { new_ledger with settings :=
      { new_ledger.settings with
        consensus_nonce := natMix new_ledger.settings.consensus_nonce n } }
  | none => new_ledger

/-- Embedding of `Ledger::apply_block` (ledger.rs lines 304-349). -/
def Ledger.apply_block (l : Ledger) (ledger_params : LedgerParameters)
    (contents : List Message) (metadata : HeaderContentEvalContext) : R Ledger :=
  let new_ledger := { l with chain_length := l.chain_length + 1 }
  if metadata.chain_length ≠ new_ledger.chain_length then
    .err (.WrongChainLength metadata.chain_length new_ledger.chain_length)
  else if BlockDate.le metadata.block_date new_ledger.date then
    .err (.NonMonotonicDate metadata.block_date new_ledger.date)
  else
    (liftUpdate (new_ledger.updates.process_proposals new_ledger.settings
        new_ledger.date metadata.block_date)).bind fun us =>
      let new_ledger := { new_ledger with updates := us.1, settings := us.2 }
      (apply_fragments ledger_params metadata new_ledger contents).bind
        fun new_ledger => .ok (finish_block metadata new_ledger)

/-! ## Genesis bootstrap (`Ledger::new`, ledger.rs lines 146-301) -/

/-- Result of scanning the initial configuration parameters
(ledger.rs lines 160-186): the five bootstrap options plus the remaining
parameters in order. Each option is simply overwritten on every
occurrence, so the last occurrence wins. -/
structure ScanResult where
  regular_ents : List ConfigParam
  block0_start_time : Option Nat
  slot_duration : Option Nat
  discrimination : Option Discrimination
  slots_per_epoch : Option Nat
  kes_update_speed : Option Nat
deriving DecidableEq

/-- The parameter scan of `Ledger::new` (ledger.rs lines 160-186). -/
def scan_init_params (params : List ConfigParam) : ScanResult :=
  params.foldl
    (fun s p =>
      match p with
      | .Block0Date d => { s with block0_start_time := some d }
      | .Discrimination d => { s with discrimination := some d }
      | .SlotDuration d => { s with slot_duration := some d }
      | .SlotsPerEpoch n => { s with slots_per_epoch := some n }
      | .KESUpdateSpeed n => { s with kes_update_speed := some n }
      | _ => { s with regular_ents := s.regular_ents ++ [p] })
    ⟨[], none, none, none, none, none⟩

/-- The per-fragment loop of `Ledger::new` (ledger.rs lines 231-297). -/
def apply_block0_messages (ledger_params : LedgerParameters) :
    Ledger → List Message → R Ledger
  | ledger, [] => .ok ledger
  | ledger, content :: rest =>
    match content with
    | .Initial _ => .err (.Block0 .InitialMessageMany)
    | .OldUtxoDeclaration old =>
      (apply_old_declaration ledger.oldutxos old).bind fun oldutxos' =>
        apply_block0_messages ledger_params { ledger with oldutxos := oldutxos' } rest
    | .Transaction authenticated_tx =>
      if authenticated_tx.transaction.inputs.length ≠ 0 then
        .err (.Block0 .TransactionHasInput)
      else if authenticated_tx.witnesses.length ≠ 0 then
        .err (.Block0 .TransactionHasWitnesses)
      else
        let transaction_id := authenticated_tx.transaction.hash
        (internal_apply_transaction_output ledger.utxos ledger.accounts
            ledger.multisig ledger.static_params ledger_params transaction_id
            authenticated_tx.transaction.outputs).bind fun r =>
          let ledger' :=
            { ledger with utxos := r.1, accounts := r.2.1, multisig := r.2.2 }
          apply_block0_messages ledger_params ledger' rest
    | .UpdateProposal _ => .err (.Block0 .HasUpdateProposal)
    | .UpdateVote _ => .err (.Block0 .HasUpdateVote)
    | .Certificate authenticated_cert_tx =>
      if authenticated_cert_tx.transaction.inputs.length ≠ 0 then
        .err (.Block0 .TransactionHasInput)
      else if authenticated_cert_tx.witnesses.length ≠ 0 then
        .err (.Block0 .TransactionHasWitnesses)
      else if authenticated_cert_tx.transaction.outputs.length ≠ 0 then
        .err (.Block0 .TransactionHasOutput)
      else
        (ledger.apply_certificate_content
            authenticated_cert_tx.transaction.extra).bind fun ledger' =>
          apply_block0_messages ledger_params ledger' rest

/-- Embedding of `validate_utxo_total_value` (ledger.rs lines 544-561): the checked
total-value computation over the four compartments, failing with
`UtxoTotalValueTooBig` on overflow. -/
def Ledger.validate_utxo_total_value (l : Ledger) : R Unit :=
  match l.accounts.get_total_value with
  | none => .err (.Block0 .UtxoTotalValueTooBig)
  | some account_value =>
    match l.multisig.get_total_value with
    | none => .err (.Block0 .UtxoTotalValueTooBig)
    | some multisig_value =>
      let old_utxo_values := l.oldutxos.entries.map (fun e => sumOuts e.2)
      let new_utxo_values := l.utxos.entries.map (fun e => sumOuts e.2)
      match value_sum (old_utxo_values ++ new_utxo_values ++
          [account_value, multisig_value]) with
      | none => .err (.Block0 .UtxoTotalValueTooBig)
      | some _ => .ok ()

/-- Embedding of `Ledger::get_ledger_parameters` (ledger.rs lines 514-518). -/
def Ledger.get_ledger_parameters (l : Ledger) : LedgerParameters :=
  ⟨l.settings.linear_fees⟩

/-- Embedding of `Ledger::new` (ledger.rs lines 146-301). -/
def Ledger.new (block0_initial_hash : Nat) (contents : List Message) : R Ledger :=
  match contents with
  | [] => .err (.Block0 .InitialMessageMissing)
  | .Initial init_ents :: content_rest =>
    let scan := scan_init_params init_ents
    match scan.block0_start_time with
    | none => .err (.Block0 .InitialMessageNoDate)
    | some block0_start_time =>
      match scan.discrimination with
      | none => .err (.Block0 .InitialMessageNoDiscrimination)
      | some discrimination =>
        match scan.slot_duration with
        | none => .err (.Block0 .InitialMessageNoSlotDuration)
        | some slot_duration =>
          match scan.slots_per_epoch with
          | none => .err (.Block0 .InitialMessageNoSlotsPerEpoch)
          | some slots_per_epoch =>
            match scan.kes_update_speed with
            | none => .err (.Block0 .InitialMessageNoKesUpdateSpeed)
            | some kes_update_speed =>
              let static_params : LedgerStaticParameters :=
                { block0_initial_hash := block0_initial_hash
                  block0_start_time := block0_start_time
                  discrimination := discrimination
                  kes_update_speed := kes_update_speed }
              let era : TimeEra := ⟨slot_duration, slots_per_epoch⟩
              let settings := (Settings.new era).apply scan.regular_ents
              if settings.bft_leaders.isEmpty then
                .err (.Block0 .InitialMessageNoConsensusLeaderId)
              else
                let ledger := Ledger.empty settings static_params
                let ledger_params := ledger.get_ledger_parameters
                (apply_block0_messages ledger_params ledger content_rest).bind
                  fun ledger =>
                    ledger.validate_utxo_total_value.bind fun _ => .ok ledger
  | _ :: _ => .err .ExpectingInitialMessage

/-! ## Totals and per-block fees (for the conservation statements) -/

/-- Total value across the four compartments as a mathematical Nat sum:
old utxos, new utxos, account balances, multisig balances. -/
def Ledger.totalNat (l : Ledger) : Nat :=
  l.oldutxos.totalNat + l.utxos.totalNat + l.accounts.totalNat + l.multisig.totalNat

/-- The fee a fragment pays under the given parameters (0 when the
fragment is not a transaction; a certificate transaction counts one
certificate in the tariff). When the fee computation overflows the
fragment is rejected, so the default value is never observed on a
successful apply. -/
def fragmentFee (p : LedgerParameters) : Message → Nat
  | .Transaction atx =>
    (p.fees.calculate atx.transaction.inputs.length atx.transaction.outputs.length 0).getD 0
  | .Certificate atx =>
    (p.fees.calculate atx.transaction.inputs.length atx.transaction.outputs.length 1).getD 0
  | _ => 0

/-- Sum of the fees of a block's fragments. -/
def blockFees (p : LedgerParameters) (contents : List Message) : Nat :=
  (contents.map (fragmentFee p)).sum

/-- A chain of successful `apply_block` calls from one ledger to another,
accumulating the total fees of the applied fragments. -/
inductive ApplySteps : Ledger → Ledger → Nat → Prop
  | refl (l : Ledger) : ApplySteps l l 0
  | step {l1 l2 l3 : Ledger} {f : Nat} (params : LedgerParameters)
      (contents : List Message) (metadata : HeaderContentEvalContext)
      (happly : l2.apply_block params contents metadata = .ok l3)
      (hprev : ApplySteps l1 l2 f) :
      ApplySteps l1 l3 (f + blockFees params contents)

/-! ## Frame lemmas: which ledger fields each operation can touch -/

theorem input_utxo_verify_frame (l : Ledger) (tid : Nat) (u : UtxoPointer)
    (w : Witness) (l' : Ledger) (h : input_utxo_verify l tid u w = .ok l') :
    l'.chain_length = l.chain_length ∧ l'.date = l.date ∧
    l'.accounts = l.accounts ∧ l'.multisig = l.multisig ∧
    l'.settings = l.settings ∧ l'.static_params = l.static_params := by
  unfold input_utxo_verify at h
  cases w with
  | Account s => simp at h
  | Multisig s => simp at h
  | OldUtxo xpub sig =>
    rw [R.bind_ok_iff] at h
    obtain ⟨⟨r1, r2⟩, hrem, h⟩ := h
    simp only [] at h
    repeat' split at h
    all_goals simp at h
    subst h
    simp
  | Utxo sig =>
    rw [R.bind_ok_iff] at h
    obtain ⟨⟨r1, r2⟩, hrem, h⟩ := h
    simp only [] at h
    repeat' split at h
    all_goals simp at h
    subst h
    simp

theorem process_inputs_frame (pairs : List (InputEnum × Witness)) (l : Ledger)
    (tid : Nat) (l' : Ledger) (h : process_inputs l tid pairs = .ok l') :
    l'.chain_length = l.chain_length ∧ l'.date = l.date ∧
    l'.settings = l.settings ∧ l'.static_params = l.static_params := by
  induction pairs generalizing l with
  | nil =>
    unfold process_inputs at h
    simp_all
  | cons p rest ih =>
    unfold process_inputs at h
    obtain ⟨i, w⟩ := p
    cases i with
    | utxoInput u =>
      simp only [R.bind_ok_iff] at h
      obtain ⟨l1, hv, h⟩ := h
      have hf := input_utxo_verify_frame l tid u w l1 hv
      have h2 := ih l1 h
      simp_all
    | accountInput aid v =>
      simp only [R.bind_ok_iff] at h
      obtain ⟨p2, hv, h⟩ := h
      have h2 := ih { l with accounts := p2.1, multisig := p2.2 } h
      simp_all

theorem internal_apply_transaction_frame (l : Ledger) (dp : LedgerParameters)
    (tid : Nat) (ins : List InputEnum) (outs : List (Output Address))
    (wits : List Witness) (fee : Nat) (l' : Ledger)
    (h : internal_apply_transaction l dp tid ins outs wits fee = .ok l') :
    l'.chain_length = l.chain_length ∧ l'.date = l.date ∧
    l'.settings = l.settings ∧ l'.static_params = l.static_params := by
  unfold internal_apply_transaction at h
  repeat' split at h
  all_goals try simp only [R.bind_ok_iff] at h
  all_goals try simp at h
  obtain ⟨l1, hpi, h⟩ := h
  have hf := process_inputs_frame (ins.zip wits) l tid l1 hpi
  obtain ⟨u2, a2, m2, hout, h⟩ := h
  subst h
  simp_all

theorem apply_transaction_frame {E : Type} (l : Ledger)
    (tx : AuthenticatedTransaction Address E) (ncert : Nat)
    (dp : LedgerParameters) (l' : Ledger) (fee : Nat)
    (h : l.apply_transaction tx ncert dp = .ok (l', fee)) :
    l'.chain_length = l.chain_length ∧ l'.date = l.date ∧
    l'.settings = l.settings ∧ l'.static_params = l.static_params := by
  unfold Ledger.apply_transaction at h
  split at h
  · simp at h
  · rename_i t ht
    simp only [] at h
    rw [R.bind_ok_iff] at h
    obtain ⟨l1, hi, h⟩ := h
    simp at h
    obtain ⟨h1, h2⟩ := h
    subst h1
    exact internal_apply_transaction_frame l dp tx.transaction.hash
      tx.transaction.inputs tx.transaction.outputs tx.witnesses t l1 hi

theorem apply_certificate_content_frame (l : Ledger) (c : Certificate)
    (l' : Ledger) (h : l.apply_certificate_content c = .ok l') :
    l'.chain_length = l.chain_length ∧ l'.date = l.date ∧
    l'.settings = l.settings ∧ l'.static_params = l.static_params ∧
    l'.utxos = l.utxos ∧ l'.oldutxos = l.oldutxos ∧ l'.multisig = l.multisig := by
  unfold Ledger.apply_certificate_content at h
  repeat' split at h
  all_goals try simp at h
  all_goals (obtain ⟨a2, hset, h⟩ := h; subst h; simp)

theorem apply_fragment_frame (l : Ledger) (p : LedgerParameters) (c : Message)
    (m : HeaderContentEvalContext) (l' : Ledger)
    (h : l.apply_fragment p c m = .ok l') :
    l'.chain_length = l.chain_length ∧ l'.date = l.date ∧
    l'.settings = l.settings ∧ l'.static_params = l.static_params := by
  unfold Ledger.apply_fragment at h
  cases c with
  | Initial ps => simp at h
  | OldUtxoDeclaration d => simp at h
  | Transaction atx =>
    simp only [] at h
    rw [R.bind_ok_iff] at h
    obtain ⟨pr, hv, h⟩ := h
    simp at h
    subst h
    have hf := apply_transaction_frame l atx 0 p pr.1 pr.2 (by simpa using hv)
    simp_all
  | Certificate atx =>
    simp only [] at h
    rw [R.bind_ok_iff] at h
    obtain ⟨pr, hv, h⟩ := h
    simp at h
    subst h
    unfold Ledger.apply_certificate at hv
    split at hv
    · simp at hv
    · rw [R.bind_ok_iff] at hv
      obtain ⟨r1, ht, hv⟩ := hv
      rw [R.bind_ok_iff] at hv
      obtain ⟨l2, hcc, hv⟩ := hv
      simp at hv
      have h1 := apply_transaction_frame l atx 1 p r1.1 r1.2 (by simpa using ht)
      have h2 := apply_certificate_content_frame r1.1 atx.transaction.extra l2 hcc
      obtain ⟨hv1, hv2⟩ := hv
      simp_all
  | UpdateProposal up =>
    simp only [] at h
    unfold Ledger.apply_update_proposal at h
    rw [R.bind_ok_iff] at h
    obtain ⟨u, hu, h⟩ := h
    simp at h
    subst h
    simp
  | UpdateVote v =>
    simp only [] at h
    unfold Ledger.apply_update_vote at h
    rw [R.bind_ok_iff] at h
    obtain ⟨u, hu, h⟩ := h
    simp at h
    subst h
    simp

theorem apply_fragments_frame (cs : List Message) (l : Ledger)
    (p : LedgerParameters) (m : HeaderContentEvalContext) (l' : Ledger)
    (h : apply_fragments p m l cs = .ok l') :
    l'.chain_length = l.chain_length ∧ l'.date = l.date := by
  induction cs generalizing l with
  | nil => unfold apply_fragments at h; simp_all
  | cons c rest ih =>
    unfold apply_fragments at h
    rw [R.bind_ok_iff] at h
    obtain ⟨l1, hv, h⟩ := h
    have hf := apply_fragment_frame l p c m l1 hv
    have h2 := ih l1 h
    simp_all

/-! ## Concrete instances used to exercise the theorems -/

/-- A minimal valid genesis configuration (the five bootstrap keys plus a
BFT leader). -/
def g0params : List ConfigParam :=
  [.Block0Date 1000, .Discrimination .Test, .SlotDuration 10, .SlotsPerEpoch 100,
   .KESUpdateSpeed 3600, .AddBftLeader 1]

/-- A minimal genesis block content. -/
def gmsgs : List Message := [.Initial g0params]

/-- The ledger parameters of the minimal genesis (zero fees). -/
def gParams : LedgerParameters := ⟨⟨0, 0, 0⟩⟩

/-- The static parameters produced by the minimal genesis. -/
def gStatic : LedgerStaticParameters := ⟨0, 1000, .Test, 3600⟩

/-- The settings produced by the minimal genesis. -/
def gSettings : Settings :=
  { linear_fees := ⟨0, 0, 0⟩
    consensus_version := 0
    bft_leaders := [1]
    proposal_expiration := 100
    epoch_stability_depth := 0
    consensus_nonce := 0
    era := ⟨10, 100⟩ }

/-- The ledger produced by the minimal genesis. -/
def gLedger : Ledger := Ledger.empty gSettings gStatic

theorem gLedger_new : Ledger.new 0 gmsgs = R.ok gLedger := by decide

theorem finish_block_chain_length (m : HeaderContentEvalContext) (nl : Ledger) :
    (finish_block m nl).chain_length = nl.chain_length := by
  unfold finish_block
  cases hn : m.nonce <;> simp [hn]

theorem finish_block_date (m : HeaderContentEvalContext) (nl : Ledger) :
    (finish_block m nl).date = m.block_date := by
  unfold finish_block
  cases hn : m.nonce <;> simp [hn]

/-! ## C4 — chain length and date framing of `apply_block` -/

/-- C4: `apply_block` rejects with WrongChainLength unless the header's
chain length equals the state's chain length plus one, rejects with
NonMonotonicDate unless the header's block date is strictly greater than
the state's date, and on success the new state has chain_length = old + 1
and date = the header's block date. -/
theorem C4_apply_block_chain_length_date (l : Ledger) (params : LedgerParameters)
    (contents : List Message) (metadata : HeaderContentEvalContext) :
    (metadata.chain_length ≠ l.chain_length + 1 →
      l.apply_block params contents metadata =
        .err (.WrongChainLength metadata.chain_length (l.chain_length + 1))) ∧
    (metadata.chain_length = l.chain_length + 1 →
      BlockDate.le metadata.block_date l.date →
      l.apply_block params contents metadata =
        .err (.NonMonotonicDate metadata.block_date l.date)) ∧
    (∀ l', l.apply_block params contents metadata = .ok l' →
      metadata.chain_length = l.chain_length + 1 ∧
      ¬ BlockDate.le metadata.block_date l.date ∧
      l'.chain_length = l.chain_length + 1 ∧ l'.date = metadata.block_date) := by
  refine ⟨?_, ?_, ?_⟩
  · intro hne
    unfold Ledger.apply_block
    simp [hne]
  · intro heq hle
    unfold Ledger.apply_block
    simp [heq, hle]
  · intro l' h
    unfold Ledger.apply_block at h
    simp only [] at h
    by_cases hcl : metadata.chain_length = l.chain_length + 1
    · rw [if_neg (by simpa using hcl)] at h
      by_cases hbd : BlockDate.le metadata.block_date l.date
      · rw [if_pos hbd] at h
        simp at h
      · rw [if_neg hbd] at h
        simp only [R.bind_ok_iff, R.ok.injEq] at h
        obtain ⟨us, hpp, nl, haf, h⟩ := h
        have hf := apply_fragments_frame contents _ params metadata nl haf
        simp only [] at hf
        subst h
        exact ⟨hcl, hbd, by rw [finish_block_chain_length, hf.1],
          finish_block_date metadata nl⟩
    · rw [if_pos (by simpa using hcl)] at h
      simp at h

/-! ## Value sum facts -/

theorem value_sum_some : ∀ {vs : List Nat} {t : Nat}, value_sum vs = some t → t = vs.sum := by
  intro vs
  induction vs with
  | nil =>
    intro t h
    simp [value_sum] at h
    simp [← h]
  | cons v vs ih =>
    intro t h
    unfold value_sum at h
    cases hs : value_sum vs with
    | none => rw [hs] at h; simp at h
    | some s =>
      rw [hs] at h
      simp [value_checked_add] at h
      obtain ⟨-, h2⟩ := h
      subst h2
      simp [List.sum_cons, ih hs]

/-! ## C3 — exact balance requirement of `internal_apply_transaction` -/

/-- C3: once the arity checks and the per-input witness verification pass,
`internal_apply_transaction` accepts only when the sum of input values
equals the sum of output values plus the fee, exactly; an imbalance fails
with NotBalanced carrying both computed totals, and overflow while
summing yields UtxoInputsTotal (inputs) or UtxoOutputsTotal (outputs). -/
theorem C3_balance_exact (l : Ledger) (dp : LedgerParameters) (tid : Nat)
    (inputs : List InputEnum) (outputs : List (Output Address))
    (witnesses : List Witness) (fee : Nat) (l1 : Ledger)
    (hin : inputs.length ≤ MAX_TRANSACTION_INPUTS_COUNT)
    (hout : outputs.length ≤ MAX_TRANSACTION_OUTPUTS_COUNT)
    (hwit : witnesses.length ≤ MAX_TRANSACTION_WITNESSES_COUNT)
    (harity : inputs.length = witnesses.length)
    (hloop : process_inputs l tid (inputs.zip witnesses) = .ok l1) :
    (value_sum (inputs.map InputEnum.value) = none →
      internal_apply_transaction l dp tid inputs outputs witnesses fee =
        .err (.UtxoInputsTotal .Overflow)) ∧
    (∀ ti, value_sum (inputs.map InputEnum.value) = some ti →
      value_sum (outputs.map (fun o => o.value) ++ [fee]) = none →
      internal_apply_transaction l dp tid inputs outputs witnesses fee =
        .err (.UtxoOutputsTotal .Overflow)) ∧
    (∀ ti tou, value_sum (inputs.map InputEnum.value) = some ti →
      value_sum (outputs.map (fun o => o.value) ++ [fee]) = some tou →
      ti ≠ tou →
      internal_apply_transaction l dp tid inputs outputs witnesses fee =
        .err (.NotBalanced ti tou)) ∧
    (∀ l', internal_apply_transaction l dp tid inputs outputs witnesses fee = .ok l' →
      (∃ t, value_sum (inputs.map InputEnum.value) = some t ∧
        value_sum (outputs.map (fun o => o.value) ++ [fee]) = some t) ∧
      (inputs.map InputEnum.value).sum =
        (outputs.map (fun o => o.value)).sum + fee) := by
  have hni : ¬ MAX_TRANSACTION_INPUTS_COUNT < inputs.length := by omega
  have hno : ¬ MAX_TRANSACTION_OUTPUTS_COUNT < outputs.length := by omega
  have hnw : ¬ MAX_TRANSACTION_WITNESSES_COUNT < witnesses.length := by omega
  have hna : ¬ inputs.length ≠ witnesses.length := by omega
  refine ⟨?_, ?_, ?_, ?_⟩
  · intro hsum
    unfold internal_apply_transaction
    rw [if_neg hni, if_neg hno, if_neg hnw, if_neg hna, hloop, R.ok_bind, hsum]
  · intro ti hti hso
    unfold internal_apply_transaction
    rw [if_neg hni, if_neg hno, if_neg hnw, if_neg hna, hloop, R.ok_bind, hti, hso]
  · intro ti tou hti hto hne
    unfold internal_apply_transaction
    rw [if_neg hni, if_neg hno, if_neg hnw, if_neg hna, hloop, R.ok_bind, hti, hto]
    simp [hne]
  · intro l' h
    unfold internal_apply_transaction at h
    rw [if_neg hni, if_neg hno, if_neg hnw, if_neg hna, hloop, R.ok_bind] at h
    cases hti : value_sum (inputs.map InputEnum.value) with
    | none => rw [hti] at h; simp at h
    | some ti =>
      rw [hti] at h
      cases hto : value_sum (outputs.map (fun o => o.value) ++ [fee]) with
      | none => rw [hto] at h; simp at h
      | some tou =>
        rw [hto] at h
        simp only [] at h
        split at h
        · simp at h
        · rename_i hnn
          have heq : ti = tou := by
            by_contra hc
            exact hnn hc
          subst heq
          refine ⟨⟨ti, rfl, rfl⟩, ?_⟩
          have h1 := value_sum_some hti
          have h2 := value_sum_some hto
          rw [List.sum_append] at h2
          simp at h2
          omega

theorem C4_witness :
    gLedger.apply_block gParams [] ⟨⟨0, 1⟩, 5, none⟩ =
      R.err (.WrongChainLength 5 1) :=
  (C4_apply_block_chain_length_date gLedger gParams [] ⟨⟨0, 1⟩, 5, none⟩).1 (by decide)

/-- A single-kind test output worth 5. -/
def oSingle5 : Output Address := ⟨⟨.Test, .Single 9⟩, 5⟩

theorem C3_witness :
    internal_apply_transaction gLedger gParams 7 [] [oSingle5] [] 0 =
      R.err (.NotBalanced 0 5) :=
  (C3_balance_exact gLedger gParams 7 [] [oSingle5] [] 0 gLedger
    (by decide) (by decide) (by decide) (by decide) (by decide)).2.2.1 0 5
    (by decide) (by decide) (by decide)

/-! ## C5 — bootstrap keys: duplicates are not rejected, missing keys are -/

/-- A genesis content whose Initial fragment carries Block0Date twice. -/
def dupMsgs : List Message :=
  [.Initial [.Block0Date 1, .Block0Date 2, .Discrimination .Test, .SlotDuration 10,
    .SlotsPerEpoch 100, .KESUpdateSpeed 3600, .AddBftLeader 1]]

/-- C5 counterexample: an Initial fragment containing Block0Date twice is
accepted by `Ledger::new` — it does not fail with
InitialMessageDuplicateBlock0Date (the scan simply overwrites). -/
theorem C5_counterexample :
    (Ledger.new 0 dupMsgs).isOk = true ∧
    Ledger.new 0 dupMsgs ≠ R.err (.Block0 .InitialMessageDuplicateBlock0Date) := by
  constructor <;> decide

/-- C5 (amended): duplicated bootstrap keys are not rejected — each
occurrence overwrites the previous one, so the last occurrence wins —
while a missing bootstrap key fails with the corresponding distinct
InitialMessageNoX error, checked in the order Block0Date, Discrimination,
SlotDuration, SlotsPerEpoch, KESUpdateSpeed. -/
theorem C5_bootstrap_keys_last_wins_missing_rejected :
    (∀ ps d, (scan_init_params (ps ++ [ConfigParam.Block0Date d])).block0_start_time = some d) ∧
    (∀ ps d, (scan_init_params (ps ++ [ConfigParam.Discrimination d])).discrimination = some d) ∧
    (∀ ps n, (scan_init_params (ps ++ [ConfigParam.SlotDuration n])).slot_duration = some n) ∧
    (∀ ps n, (scan_init_params (ps ++ [ConfigParam.SlotsPerEpoch n])).slots_per_epoch = some n) ∧
    (∀ ps n, (scan_init_params (ps ++ [ConfigParam.KESUpdateSpeed n])).kes_update_speed = some n) ∧
    (∀ h0 ps rest, (scan_init_params ps).block0_start_time = none →
      Ledger.new h0 (.Initial ps :: rest) = .err (.Block0 .InitialMessageNoDate)) ∧
    (∀ h0 ps rest d, (scan_init_params ps).block0_start_time = some d →
      (scan_init_params ps).discrimination = none →
      Ledger.new h0 (.Initial ps :: rest) = .err (.Block0 .InitialMessageNoDiscrimination)) ∧
    (∀ h0 ps rest d dd, (scan_init_params ps).block0_start_time = some d →
      (scan_init_params ps).discrimination = some dd →
      (scan_init_params ps).slot_duration = none →
      Ledger.new h0 (.Initial ps :: rest) = .err (.Block0 .InitialMessageNoSlotDuration)) ∧
    (∀ h0 ps rest d dd sd, (scan_init_params ps).block0_start_time = some d →
      (scan_init_params ps).discrimination = some dd →
      (scan_init_params ps).slot_duration = some sd →
      (scan_init_params ps).slots_per_epoch = none →
      Ledger.new h0 (.Initial ps :: rest) = .err (.Block0 .InitialMessageNoSlotsPerEpoch)) ∧
    (∀ h0 ps rest d dd sd se, (scan_init_params ps).block0_start_time = some d →
      (scan_init_params ps).discrimination = some dd →
      (scan_init_params ps).slot_duration = some sd →
      (scan_init_params ps).slots_per_epoch = some se →
      (scan_init_params ps).kes_update_speed = none →
      Ledger.new h0 (.Initial ps :: rest) = .err (.Block0 .InitialMessageNoKesUpdateSpeed)) := by
  refine ⟨?_, ?_, ?_, ?_, ?_, ?_, ?_, ?_, ?_, ?_⟩
  · intro ps d; simp [scan_init_params, List.foldl_append]
  · intro ps d; simp [scan_init_params, List.foldl_append]
  · intro ps n; simp [scan_init_params, List.foldl_append]
  · intro ps n; simp [scan_init_params, List.foldl_append]
  · intro ps n; simp [scan_init_params, List.foldl_append]
  · intro h0 ps rest hd
    unfold Ledger.new
    simp only [] at hd ⊢
    rw [hd]
  · intro h0 ps rest d hd hdisc
    unfold Ledger.new
    simp only [] at hd hdisc ⊢
    rw [hd, hdisc]
  · intro h0 ps rest d dd hd hdisc hsd
    unfold Ledger.new
    simp only [] at hd hdisc hsd ⊢
    rw [hd, hdisc, hsd]
  · intro h0 ps rest d dd sd hd hdisc hsd hse
    unfold Ledger.new
    simp only [] at hd hdisc hsd hse ⊢
    rw [hd, hdisc, hsd, hse]
  · intro h0 ps rest d dd sd se hd hdisc hsd hse hk
    unfold Ledger.new
    simp only [] at hd hdisc hsd hse hk ⊢
    rw [hd, hdisc, hsd, hse, hk]

theorem C5_witness :
    Ledger.new 0 [.Initial []] = R.err (.Block0 .InitialMessageNoDate) :=
  (C5_bootstrap_keys_last_wins_missing_rejected).2.2.2.2.2.1 0 [] [] (by decide)

/-! ## C9 — totality: the old-declaration assert panics -/

set_option maxRecDepth 1000000

/-- An old-utxo declaration with 255 addresses — one more than the
`assert!(decl.addrs.len() < 255)` in `apply_old_declaration` allows. -/
def bigOldDecl : UtxoDeclaration := ⟨List.replicate 255 (⟨5⟩, 1)⟩

/-- A genesis content carrying that declaration. -/
def panicMsgs : List Message := [.Initial g0params, .OldUtxoDeclaration bigOldDecl]

/-- C9: `Ledger::new` is not total — an OldUtxoDeclaration with 255
addresses in the genesis block trips the assert in
`apply_old_declaration` and panics instead of returning an error value. -/
theorem C9_old_declaration_panics :
    apply_old_declaration UtxoLedger.new bigOldDecl = R.panic ∧
    Ledger.new 0 panicMsgs = R.panic := by
  constructor <;> decide

/-! ## C6 — transaction arity limits -/

/-- An Account-kind output worth 1. -/
def acctOut1 : Output Address := ⟨⟨.Test, .Account 77⟩, 1⟩

/-- A genesis transaction with 255 outputs (more than the 254 allowed in
normal blocks), zero inputs and zero witnesses. -/
def bigOutputTx : AuthenticatedTransaction Address Unit :=
  ⟨⟨[], List.replicate 255 acctOut1, ()⟩, []⟩

/-- A genesis content carrying that transaction. -/
def bigOutputMsgs : List Message := [.Initial g0params, .Transaction bigOutputTx]

/-- C6 counterexample: the genesis block built by `Ledger::new` accepts a
transaction with 255 outputs — the 254-output bound is only enforced by
`internal_apply_transaction`, which genesis transactions bypass. -/
theorem C6_counterexample :
    (Ledger.new 0 bigOutputMsgs).isOk = true ∧
    bigOutputTx.transaction.outputs.length = 255 ∧
    MAX_TRANSACTION_OUTPUTS_COUNT < bigOutputTx.transaction.outputs.length := by
  refine ⟨by decide, by decide, by decide⟩

/-- C6 (amended): transactions applied through `apply_block` satisfy the
bounds — at most 256 inputs, 254 outputs and 256 witnesses, with exactly
as many witnesses as inputs — each violation failing with the
corresponding error; genesis transactions are only forced to have zero
inputs and zero witnesses, their output count being unbounded. -/
theorem C6_transaction_limits :
    (∀ l dp tid ins outs wits fee, 256 < (ins : List InputEnum).length →
      internal_apply_transaction l dp tid ins outs wits fee =
        .err (.TransactionHasTooManyInputs 256 ins.length)) ∧
    (∀ l dp tid ins outs wits fee, (ins : List InputEnum).length ≤ 256 →
      254 < (outs : List (Output Address)).length →
      internal_apply_transaction l dp tid ins outs wits fee =
        .err (.TransactionHasTooManyOutputs 254 outs.length)) ∧
    (∀ l dp tid ins outs wits fee, (ins : List InputEnum).length ≤ 256 →
      (outs : List (Output Address)).length ≤ 254 →
      256 < (wits : List Witness).length →
      internal_apply_transaction l dp tid ins outs wits fee =
        .err (.TransactionHasTooManyWitnesses 256 wits.length)) ∧
    (∀ l dp tid ins outs wits fee, (ins : List InputEnum).length ≤ 256 →
      (outs : List (Output Address)).length ≤ 254 →
      (wits : List Witness).length ≤ 256 →
      ins.length ≠ wits.length →
      internal_apply_transaction l dp tid ins outs wits fee =
        .err (.NotEnoughSignatures wits.length ins.length)) ∧
    (∀ l dp tid ins outs wits fee l',
      internal_apply_transaction l dp tid ins outs wits fee = .ok l' →
      ins.length ≤ 256 ∧ outs.length ≤ 254 ∧ wits.length ≤ 256 ∧
        ins.length = wits.length) ∧
    (∀ lp ledger atx rest, (atx : AuthenticatedTransaction Address Unit).transaction.inputs.length ≠ 0 →
      apply_block0_messages lp ledger (.Transaction atx :: rest) =
        .err (.Block0 .TransactionHasInput)) ∧
    (∀ lp ledger atx rest, (atx : AuthenticatedTransaction Address Unit).transaction.inputs.length = 0 →
      atx.witnesses.length ≠ 0 →
      apply_block0_messages lp ledger (.Transaction atx :: rest) =
        .err (.Block0 .TransactionHasWitnesses)) := by
  have e1 : ∀ (l : Ledger) dp tid (ins : List InputEnum)
      (outs : List (Output Address)) (wits : List Witness) fee,
      256 < ins.length →
      internal_apply_transaction l dp tid ins outs wits fee =
        .err (.TransactionHasTooManyInputs 256 ins.length) := by
    intro l dp tid ins outs wits fee h1
    unfold internal_apply_transaction
    rw [if_pos (by simpa [MAX_TRANSACTION_INPUTS_COUNT] using h1)]
    rfl
  have e2 : ∀ (l : Ledger) dp tid (ins : List InputEnum)
      (outs : List (Output Address)) (wits : List Witness) fee,
      ins.length ≤ 256 → 254 < outs.length →
      internal_apply_transaction l dp tid ins outs wits fee =
        .err (.TransactionHasTooManyOutputs 254 outs.length) := by
    intro l dp tid ins outs wits fee h1 h2
    unfold internal_apply_transaction
    rw [if_neg (by simp [MAX_TRANSACTION_INPUTS_COUNT]; omega),
      if_pos (by simpa [MAX_TRANSACTION_OUTPUTS_COUNT] using h2)]
    rfl
  have e3 : ∀ (l : Ledger) dp tid (ins : List InputEnum)
      (outs : List (Output Address)) (wits : List Witness) fee,
      ins.length ≤ 256 → outs.length ≤ 254 → 256 < wits.length →
      internal_apply_transaction l dp tid ins outs wits fee =
        .err (.TransactionHasTooManyWitnesses 256 wits.length) := by
    intro l dp tid ins outs wits fee h1 h2 h3
    unfold internal_apply_transaction
    rw [if_neg (by simp [MAX_TRANSACTION_INPUTS_COUNT]; omega),
      if_neg (by simp [MAX_TRANSACTION_OUTPUTS_COUNT]; omega),
      if_pos (by simpa [MAX_TRANSACTION_WITNESSES_COUNT] using h3)]
    rfl
  have e4 : ∀ (l : Ledger) dp tid (ins : List InputEnum)
      (outs : List (Output Address)) (wits : List Witness) fee,
      ins.length ≤ 256 → outs.length ≤ 254 → wits.length ≤ 256 →
      ins.length ≠ wits.length →
      internal_apply_transaction l dp tid ins outs wits fee =
        .err (.NotEnoughSignatures wits.length ins.length) := by
    intro l dp tid ins outs wits fee h1 h2 h3 h4
    unfold internal_apply_transaction
    rw [if_neg (by simp [MAX_TRANSACTION_INPUTS_COUNT]; omega),
      if_neg (by simp [MAX_TRANSACTION_OUTPUTS_COUNT]; omega),
      if_neg (by simp [MAX_TRANSACTION_WITNESSES_COUNT]; omega),
      if_pos h4]
  refine ⟨e1, e2, e3, e4, ?_, ?_, ?_⟩
  · intro l dp tid ins outs wits fee l' h
    have b1 : ins.length ≤ 256 := by
      by_contra hb
      push_neg at hb
      rw [e1 l dp tid ins outs wits fee hb] at h
      simp at h
    have b2 : outs.length ≤ 254 := by
      by_contra hb
      push_neg at hb
      rw [e2 l dp tid ins outs wits fee b1 hb] at h
      simp at h
    have b3 : wits.length ≤ 256 := by
      by_contra hb
      push_neg at hb
      rw [e3 l dp tid ins outs wits fee b1 b2 hb] at h
      simp at h
    have b4 : ins.length = wits.length := by
      by_contra hb
      rw [e4 l dp tid ins outs wits fee b1 b2 b3 hb] at h
      simp at h
    exact ⟨b1, b2, b3, b4⟩
  · intro lp ledger atx rest h1
    unfold apply_block0_messages
    simp only []
    rw [if_pos h1]
  · intro lp ledger atx rest h1 h2
    unfold apply_block0_messages
    simp only []
    rw [if_neg (by simpa using h1), if_pos h2]

theorem C6_witness :
    internal_apply_transaction gLedger gParams 7 [] (List.replicate 255 acctOut1) [] 0 =
      R.err (.TransactionHasTooManyOutputs 254 255) :=
  (C6_transaction_limits).2.1 gLedger gParams 7 [] (List.replicate 255 acctOut1) [] 0
    (by decide) (by decide)

/-! ## C7 — old-utxo public key check is inverted -/

/-- An old output at legacy address with derivation root 42, worth 5. -/
def oldOut : Output OldAddress := ⟨⟨42⟩, 5⟩

/-- The minimal genesis ledger holding that single old utxo under
transaction id 3, index 0. -/
def c7Ledger : Ledger := { gLedger with oldutxos := ⟨[(3, [(0, oldOut)])]⟩ }

/-- A pointer to that old utxo claiming the correct value. -/
def c7Ptr : UtxoPointer := ⟨3, 0, 5⟩

/-- C7: the public-key check of `input_utxo_verify` is inverted. With the
xpub that MATCHES the legacy address derivation (42) and a valid
signature over (block0 hash, tx id), the spend is rejected with
OldUtxoInvalidPublicKey; with a NON-matching xpub (43) whose signature
verifies, the check is passed and the spend succeeds. -/
theorem C7_old_utxo_key_check_inverted :
    oldaddress_from_xpub (OldAddress.mk 42) 42 = true ∧
    input_utxo_verify c7Ledger 7 c7Ptr (.OldUtxo 42 ⟨42, .utxoData 0 7⟩) =
      R.err (.OldUtxoInvalidPublicKey c7Ptr oldOut (.OldUtxo 42 ⟨42, .utxoData 0 7⟩)) ∧
    oldaddress_from_xpub (OldAddress.mk 42) 43 = false ∧
    input_utxo_verify c7Ledger 7 c7Ptr (.OldUtxo 43 ⟨43, .utxoData 0 7⟩) =
      R.ok { c7Ledger with oldutxos := ⟨[]⟩ } := by
  refine ⟨by decide, by decide, by decide, by decide⟩

/-! ## C8 — output materialization -/

theorem add_value_not_exists (l : AccountLedger) (id v : Nat)
    (h : l.exists' id = false) : l.add_value id v = .error .NonExistent := by
  unfold AccountLedger.add_value
  suffices hs : creditEntries l.entries id v = .error .NonExistent by rw [hs]
  obtain ⟨es⟩ := l
  unfold AccountLedger.exists' at h
  simp only [] at h
  induction es with
  | nil => simp [creditEntries]
  | cons e rest ih =>
    unfold creditEntries
    simp only [List.any_cons, Bool.or_eq_false_iff] at h
    rw [if_neg (by simpa using h.1)]
    rw [ih h.2]

theorem add_account_fresh (l : AccountLedger) (id v : Nat)
    (h : l.exists' id = false) :
    l.add_account id v = .ok ⟨(id, ⟨v, 0, none⟩) :: l.entries⟩ := by
  unfold AccountLedger.add_account
  rw [if_neg (by simp [h])]

theorem madd_value_not_exists (l : MultisigLedger) (id v : Nat)
    (h : (l.entries.any (fun e => e.1 == id)) = false) :
    l.add_value id v = .error .NonExistent := by
  unfold MultisigLedger.add_value
  suffices hs : mcreditEntries l.entries id v = .error .NonExistent by rw [hs]
  obtain ⟨es⟩ := l
  simp only [] at h
  induction es with
  | nil => simp [mcreditEntries]
  | cons e rest ih =>
    unfold mcreditEntries
    simp only [List.any_cons, Bool.or_eq_false_iff] at h
    rw [if_neg (by simpa using h.1)]
    rw [ih h.2]

theorem mcredit_keys : ∀ (es : List (Nat × MultisigState)) (id v : Nat)
    (es' : List (Nat × MultisigState)), mcreditEntries es id v = .ok es' →
    es'.map Prod.fst = es.map Prod.fst ∧ (es.any (fun e => e.1 == id)) = true := by
  intro es
  induction es with
  | nil => intro id v es' h; simp [mcreditEntries] at h
  | cons e rest ih =>
    intro id v es' h
    unfold mcreditEntries at h
    split at h
    · rename_i heq
      cases hadd : value_checked_add e.2.balance v with
      | some b =>
        rw [hadd] at h
        simp at h
        subst h
        simp [heq]
      | none => rw [hadd] at h; simp at h
    · rename_i hne
      cases hr : mcreditEntries rest id v with
      | error er => rw [hr] at h; simp at h
      | ok rest' =>
        rw [hr] at h
        simp at h
        subst h
        have hih := ih id v rest' hr
        simp [hih.1, hih.2]

theorem madd_value_keys (l : MultisigLedger) (id v : Nat) (l' : MultisigLedger)
    (h : l.add_value id v = .ok l') :
    l'.entries.map Prod.fst = l.entries.map Prod.fst ∧
    (l.entries.any (fun e => e.1 == id)) = true := by
  unfold MultisigLedger.add_value at h
  cases hc : mcreditEntries l.entries id v with
  | error e => rw [hc] at h; simp at h
  | ok es =>
    rw [hc] at h
    simp at h
    subst h
    exact mcredit_keys l.entries id v es hc

/-- Following the spec's words (§4.10), to be compared with the code: the
outputs inserted into the new-utxo ledger are exactly the Single- and
Group-kind outputs, keyed by their declared index. -/
def spec_inserted_utxos : Nat → List (Output Address) → List (Nat × Output Address)
  | _, [] => []
  | index, o :: rest =>
    match o.address.kind with
    | .Single _ => (index % 256, o) :: spec_inserted_utxos (index + 1) rest
    | .Group _ _ => (index % 256, o) :: spec_inserted_utxos (index + 1) rest
    | _ => spec_inserted_utxos (index + 1) rest

theorem apply_outputs_loop_acc : ∀ (outputs : List (Output Address))
    (sp : LedgerStaticParameters) (a : AccountLedger) (m : MultisigLedger)
    (index : Nat) (acc acc' : List (Nat × Output Address)) (a' : AccountLedger)
    (m' : MultisigLedger),
    apply_outputs_loop sp a m index acc outputs = .ok (acc', a', m') →
    acc' = acc ++ spec_inserted_utxos index outputs := by
  intro outputs
  induction outputs with
  | nil =>
    intro sp a m index acc acc' a' m' h
    unfold apply_outputs_loop at h
    simp at h
    simp [spec_inserted_utxos, h.1]
  | cons o rest ih =>
    intro sp a m index acc acc' a' m' h
    unfold apply_outputs_loop at h
    split at h
    · simp at h
    split at h
    · simp at h
    split at h
    · rename_i k hk
      have := ih sp a m (index + 1) (acc ++ [(index % 256, o)]) acc' a' m' h
      simp [spec_inserted_utxos, hk, this]
    · rename_i k aid hk
      split at h
      · rename_i hex
        have := ih sp a m (index + 1) (acc ++ [(index % 256, o)]) acc' a' m' h
        simp [spec_inserted_utxos, hk, this]
      · rename_i hex
        rw [R.bind_ok_iff] at h
        obtain ⟨a2, hadd, h⟩ := h
        have := ih sp a2 m (index + 1) (acc ++ [(index % 256, o)]) acc' a' m' h
        simp [spec_inserted_utxos, hk, this]
    · rename_i aid hk
      split at h
      · rename_i a2 hadd
        have := ih sp a2 m (index + 1) acc acc' a' m' h
        simp [spec_inserted_utxos, hk, this]
      · rename_i hadd
        rw [R.bind_ok_iff] at h
        obtain ⟨a2, hacc, h⟩ := h
        have := ih sp a2 m (index + 1) acc acc' a' m' h
        simp [spec_inserted_utxos, hk, this]
      · rename_i e hadd hne
        simp at h
    · rename_i mid hk
      rw [R.bind_ok_iff] at h
      obtain ⟨m2, hadd, h⟩ := h
      have := ih sp a m2 (index + 1) acc acc' a' m' h
      simp [spec_inserted_utxos, hk, this]

theorem keys_any_eq (es es' : List (Nat × MultisigState))
    (hk : es'.map Prod.fst = es.map Prod.fst) (mid : Nat) :
    (es'.any (fun e => e.1 == mid)) = (es.any (fun e => e.1 == mid)) := by
  have h1 : ∀ (l : List (Nat × MultisigState)),
      l.any (fun e => e.1 == mid) = (l.map Prod.fst).any (fun k => k == mid) := by
    intro l
    induction l with
    | nil => rfl
    | cons e rest ih => simp [List.any_cons, ih]
  rw [h1, h1, hk]

theorem apply_outputs_loop_multisig : ∀ (outputs : List (Output Address))
    (sp : LedgerStaticParameters) (a : AccountLedger) (m : MultisigLedger)
    (index : Nat) (acc acc' : List (Nat × Output Address)) (a' : AccountLedger)
    (m' : MultisigLedger),
    apply_outputs_loop sp a m index acc outputs = .ok (acc', a', m') →
    m'.entries.map Prod.fst = m.entries.map Prod.fst ∧
    ∀ o ∈ outputs, ∀ mid, o.address.kind = .Multisig mid →
      (m.entries.any (fun e => e.1 == mid)) = true := by
  intro outputs
  induction outputs with
  | nil =>
    intro sp a m index acc acc' a' m' h
    unfold apply_outputs_loop at h
    simp at h
    obtain ⟨h1, h2, h3⟩ := h
    subst h3
    simp
  | cons o rest ih =>
    intro sp a m index acc acc' a' m' h
    unfold apply_outputs_loop at h
    split at h
    · simp at h
    split at h
    · simp at h
    split at h
    · rename_i k hk
      have hr := ih sp a m (index + 1) (acc ++ [(index % 256, o)]) acc' a' m' h
      refine ⟨hr.1, ?_⟩
      intro o' ho' mid hmid
      rcases List.mem_cons.mp ho' with ho' | ho'
      · subst ho'; rw [hmid] at hk; cases hk
      · exact hr.2 o' ho' mid hmid
    · rename_i k aid hk
      split at h
      · rename_i hex
        have hr := ih sp a m (index + 1) (acc ++ [(index % 256, o)]) acc' a' m' h
        refine ⟨hr.1, ?_⟩
        intro o' ho' mid hmid
        rcases List.mem_cons.mp ho' with ho' | ho'
        · subst ho'; rw [hmid] at hk; cases hk
        · exact hr.2 o' ho' mid hmid
      · rename_i hex
        rw [R.bind_ok_iff] at h
        obtain ⟨a2, hadd, h⟩ := h
        have hr := ih sp a2 m (index + 1) (acc ++ [(index % 256, o)]) acc' a' m' h
        refine ⟨hr.1, ?_⟩
        intro o' ho' mid hmid
        rcases List.mem_cons.mp ho' with ho' | ho'
        · subst ho'; rw [hmid] at hk; cases hk
        · exact hr.2 o' ho' mid hmid
    · rename_i aid hk
      split at h
      · rename_i a2 hadd
        have hr := ih sp a2 m (index + 1) acc acc' a' m' h
        refine ⟨hr.1, ?_⟩
        intro o' ho' mid hmid
        rcases List.mem_cons.mp ho' with ho' | ho'
        · subst ho'; rw [hmid] at hk; cases hk
        · exact hr.2 o' ho' mid hmid
      · rename_i hadd
        rw [R.bind_ok_iff] at h
        obtain ⟨a2, hacc, h⟩ := h
        have hr := ih sp a2 m (index + 1) acc acc' a' m' h
        refine ⟨hr.1, ?_⟩
        intro o' ho' mid hmid
        rcases List.mem_cons.mp ho' with ho' | ho'
        · subst ho'; rw [hmid] at hk; cases hk
        · exact hr.2 o' ho' mid hmid
      · rename_i e hadd hne
        simp at h
    · rename_i mid0 hk
      rw [R.bind_ok_iff] at h
      obtain ⟨m2, hadd, h⟩ := h
      rw [liftMultisig_ok_iff] at hadd
      have hkeys := madd_value_keys m mid0 o.value m2 hadd
      have hr := ih sp a m2 (index + 1) acc acc' a' m' h
      refine ⟨hr.1.trans hkeys.1, ?_⟩
      intro o' ho' mid hmid
      rcases List.mem_cons.mp ho' with ho' | ho'
      · subst ho'
        rw [hmid] at hk
        cases hk
        exact hkeys.2
      · rw [← keys_any_eq m.entries m2.entries hkeys.1 mid]
        exact hr.2 o' ho' mid hmid

/-- C8: output materialization (`internal_apply_transaction_output`,
ledger.rs lines 674-727) processes outputs in declared order. Conjunct by
conjunct: (1) a zero-valued output fails with ZeroOutput (line 686); (2) an
output whose discrimination differs from the static discrimination fails
with InvalidDiscrimination (line 692); (3) a Single output is appended to
the new-utxo batch keyed by its index cast to u8 (line 697); (4)-(5) a
Group output is appended likewise, with its account created with zero
balance first when absent (lines 699-706); (6)-(7) an Account output
credits the account, creating it with the output's value when absent
(lines 707-717); (8)-(9) a Multisig output credits the multisig account
when it exists and fails with Multisig NonExistent when it does not
(lines 718-721); (10) a successful run leaves the set of multisig account
ids unchanged and requires every Multisig output's account to pre-exist,
so multisig accounts are never created as an output side-effect; (11) a
successful materialization inserts under the transaction id exactly the
Single/Group outputs at their declared indices, as the spec's words
(`spec_inserted_utxos`, spec §4.10) describe. -/
theorem C8_output_materialization :
    (∀ sp (a : AccountLedger) (m : MultisigLedger) idx acc (o : Output Address) rest,
      o.value = 0 →
      apply_outputs_loop sp a m idx acc (o :: rest) = .err (.ZeroOutput o)) ∧
    (∀ sp (a : AccountLedger) (m : MultisigLedger) idx acc (o : Output Address) rest,
      o.value ≠ 0 → o.address.discrimination ≠ sp.discrimination →
      apply_outputs_loop sp a m idx acc (o :: rest) = .err .InvalidDiscrimination) ∧
    (∀ sp (a : AccountLedger) (m : MultisigLedger) idx acc (o : Output Address) rest k,
      o.value ≠ 0 → o.address.discrimination = sp.discrimination →
      o.address.kind = .Single k →
      apply_outputs_loop sp a m idx acc (o :: rest) =
        apply_outputs_loop sp a m (idx + 1) (acc ++ [(idx % 256, o)]) rest) ∧
    (∀ sp (a : AccountLedger) (m : MultisigLedger) idx acc (o : Output Address) rest k aid,
      o.value ≠ 0 → o.address.discrimination = sp.discrimination →
      o.address.kind = .Group k aid → a.exists' aid = true →
      apply_outputs_loop sp a m idx acc (o :: rest) =
        apply_outputs_loop sp a m (idx + 1) (acc ++ [(idx % 256, o)]) rest) ∧
    (∀ sp (a : AccountLedger) (m : MultisigLedger) idx acc (o : Output Address) rest k aid,
      o.value ≠ 0 → o.address.discrimination = sp.discrimination →
      o.address.kind = .Group k aid → a.exists' aid = false →
      apply_outputs_loop sp a m idx acc (o :: rest) =
        apply_outputs_loop sp ⟨(aid, ⟨0, 0, none⟩) :: a.entries⟩ m (idx + 1)
          (acc ++ [(idx % 256, o)]) rest) ∧
    (∀ sp (a : AccountLedger) (m : MultisigLedger) idx acc (o : Output Address) rest id a2,
      o.value ≠ 0 → o.address.discrimination = sp.discrimination →
      o.address.kind = .Account id → a.add_value id o.value = .ok a2 →
      apply_outputs_loop sp a m idx acc (o :: rest) =
        apply_outputs_loop sp a2 m (idx + 1) acc rest) ∧
    (∀ sp (a : AccountLedger) (m : MultisigLedger) idx acc (o : Output Address) rest id,
      o.value ≠ 0 → o.address.discrimination = sp.discrimination →
      o.address.kind = .Account id → a.exists' id = false →
      apply_outputs_loop sp a m idx acc (o :: rest) =
        apply_outputs_loop sp ⟨(id, ⟨o.value, 0, none⟩) :: a.entries⟩ m (idx + 1)
          acc rest) ∧
    (∀ sp (a : AccountLedger) (m : MultisigLedger) idx acc (o : Output Address) rest mid m2,
      o.value ≠ 0 → o.address.discrimination = sp.discrimination →
      o.address.kind = .Multisig mid → m.add_value mid o.value = .ok m2 →
      apply_outputs_loop sp a m idx acc (o :: rest) =
        apply_outputs_loop sp a m2 (idx + 1) acc rest) ∧
    (∀ sp (a : AccountLedger) (m : MultisigLedger) idx acc (o : Output Address) rest mid,
      o.value ≠ 0 → o.address.discrimination = sp.discrimination →
      o.address.kind = .Multisig mid → (m.entries.any (fun e => e.1 == mid)) = false →
      apply_outputs_loop sp a m idx acc (o :: rest) = .err (.Multisig .NonExistent)) ∧
    (∀ (outputs : List (Output Address)) sp (a : AccountLedger) (m : MultisigLedger)
      idx acc acc' a' m',
      apply_outputs_loop sp a m idx acc outputs = .ok (acc', a', m') →
      m'.entries.map Prod.fst = m.entries.map Prod.fst ∧
      ∀ o ∈ outputs, ∀ mid, o.address.kind = .Multisig mid →
        (m.entries.any (fun e => e.1 == mid)) = true) ∧
    (∀ (u : UtxoLedger Address) (a : AccountLedger) (m : MultisigLedger) sp dp tid
      (outputs : List (Output Address)) u' a' m',
      internal_apply_transaction_output u a m sp dp tid outputs = .ok (u', a', m') →
      u.add tid (spec_inserted_utxos 0 outputs) = .ok u') := by
  refine ⟨?_, ?_, ?_, ?_, ?_, ?_, ?_, ?_, ?_, ?_, ?_⟩
  · intro sp a m idx acc o rest h0
    conv_lhs => unfold apply_outputs_loop
    rw [if_pos h0]
  · intro sp a m idx acc o rest h0 h1
    conv_lhs => unfold apply_outputs_loop
    rw [if_neg h0, if_pos h1]
  · intro sp a m idx acc o rest k h0 h1 hk
    conv_lhs => unfold apply_outputs_loop
    rw [if_neg h0, if_neg (by simp [h1]), hk]
  · intro sp a m idx acc o rest k aid h0 h1 hk hex
    conv_lhs => unfold apply_outputs_loop
    rw [if_neg h0, if_neg (by simp [h1]), hk]
    simp only []
    rw [if_pos hex]
  · intro sp a m idx acc o rest k aid h0 h1 hk hex
    conv_lhs => unfold apply_outputs_loop
    rw [if_neg h0, if_neg (by simp [h1]), hk]
    simp only []
    rw [if_neg (by simp [hex]), add_account_fresh a aid 0 hex]
    simp [liftAccount]
  · intro sp a m idx acc o rest id a2 h0 h1 hk hadd
    conv_lhs => unfold apply_outputs_loop
    rw [if_neg h0, if_neg (by simp [h1]), hk]
    simp only []
    rw [hadd]
  · intro sp a m idx acc o rest id h0 h1 hk hex
    conv_lhs => unfold apply_outputs_loop
    rw [if_neg h0, if_neg (by simp [h1]), hk]
    simp only []
    rw [add_value_not_exists a id o.value hex, add_account_fresh a id o.value hex]
    simp [liftAccount]
  · intro sp a m idx acc o rest mid m2 h0 h1 hk hadd
    conv_lhs => unfold apply_outputs_loop
    rw [if_neg h0, if_neg (by simp [h1]), hk]
    simp only []
    rw [hadd]
    simp [liftMultisig]
  · intro sp a m idx acc o rest mid h0 h1 hk hex
    conv_lhs => unfold apply_outputs_loop
    rw [if_neg h0, if_neg (by simp [h1]), hk]
    simp only []
    rw [madd_value_not_exists m mid o.value hex]
    simp [liftMultisig]
  · intro outputs sp a m idx acc acc' a' m' h
    exact apply_outputs_loop_multisig outputs sp a m idx acc acc' a' m' h
  · intro u a m sp dp tid outputs u' a' m' h
    unfold internal_apply_transaction_output at h
    rw [R.bind_ok_iff] at h
    obtain ⟨r, hloop, h⟩ := h
    rw [R.bind_ok_iff] at h
    obtain ⟨u2, hadd, h⟩ := h
    simp at h
    rw [liftUtxo_ok_iff] at hadd
    obtain ⟨r1, r2, r3⟩ := r
    have hacc := apply_outputs_loop_acc outputs sp a m 0 [] r1 r2 r3 hloop
    simp at hacc
    subst hacc
    simp only [] at hadd
    rw [hadd]
    simp at h
    rw [h.1]

/-- Concrete account ledger for the C8 witness: account 7 with balance 1. -/
def c8a : AccountLedger := ⟨[(7, ⟨1, 0, none⟩)]⟩

/-- Concrete multisig ledger for the C8 witness: multisig account 4 with
balance 2 and a 1-of-{9} declaration. -/
def c8m : MultisigLedger := ⟨[(4, ⟨2, 0, ⟨1, [9]⟩⟩)]⟩

/-- Zero-valued output for the C8 witness. -/
def c8oZero : Output Address := ⟨⟨.Test, .Single 9⟩, 0⟩

/-- Foreign-discrimination output for the C8 witness. -/
def c8oForeign : Output Address := ⟨⟨.Production, .Single 9⟩, 5⟩

/-- Single-kind output for the C8 witness. -/
def c8oSingle : Output Address := ⟨⟨.Test, .Single 9⟩, 5⟩

/-- Account-kind output for the C8 witness, crediting account 7. -/
def c8oAcct : Output Address := ⟨⟨.Test, .Account 7⟩, 5⟩

/-- Group-kind output for the C8 witness, with account part 7. -/
def c8oGroup : Output Address := ⟨⟨.Test, .Group 3 7⟩, 5⟩

/-- Multisig-kind output for the C8 witness, crediting multisig account 4. -/
def c8oMsig : Output Address := ⟨⟨.Test, .Multisig 4⟩, 5⟩

theorem C8_witness :
    (apply_outputs_loop gStatic c8a c8m 0 [] [c8oZero] =
      .err (.ZeroOutput c8oZero)) ∧
    (apply_outputs_loop gStatic c8a c8m 0 [] [c8oForeign] =
      .err .InvalidDiscrimination) ∧
    (apply_outputs_loop gStatic c8a c8m 0 [] [c8oSingle] =
      .ok ([(0, c8oSingle)], c8a, c8m)) ∧
    (apply_outputs_loop gStatic c8a c8m 0 [] [c8oGroup] =
      .ok ([(0, c8oGroup)], c8a, c8m)) ∧
    (apply_outputs_loop gStatic AccountLedger.new c8m 0 [] [c8oGroup] =
      .ok ([(0, c8oGroup)], ⟨[(7, ⟨0, 0, none⟩)]⟩, c8m)) ∧
    (apply_outputs_loop gStatic c8a c8m 0 [] [c8oAcct] =
      .ok ([], ⟨[(7, ⟨6, 0, none⟩)]⟩, c8m)) ∧
    (apply_outputs_loop gStatic AccountLedger.new c8m 0 [] [c8oAcct] =
      .ok ([], ⟨[(7, ⟨5, 0, none⟩)]⟩, c8m)) ∧
    (apply_outputs_loop gStatic c8a c8m 0 [] [c8oMsig] =
      .ok ([], c8a, ⟨[(4, ⟨7, 0, ⟨1, [9]⟩⟩)]⟩)) ∧
    (apply_outputs_loop gStatic c8a MultisigLedger.new 0 [] [c8oMsig] =
      .err (.Multisig .NonExistent)) ∧
    ((⟨[(4, ⟨7, 0, ⟨1, [9]⟩⟩)]⟩ : MultisigLedger).entries.map Prod.fst =
      c8m.entries.map Prod.fst ∧
      (c8m.entries.any (fun e => e.1 == 4)) = true) ∧
    (UtxoLedger.new.add 77 (spec_inserted_utxos 0 [c8oSingle, c8oAcct, c8oGroup, c8oMsig]) =
      .ok ⟨[(77, [(0, c8oSingle), (2, c8oGroup)])]⟩) := by
  obtain ⟨w1, w2, w3, w4, w5, w6, w7, w8, w9, w10, w11⟩ := C8_output_materialization
  refine ⟨?_, ?_, ?_, ?_, ?_, ?_, ?_, ?_, ?_, ?_, ?_⟩
  · exact w1 gStatic c8a c8m 0 [] c8oZero [] rfl
  · exact w2 gStatic c8a c8m 0 [] c8oForeign [] (by decide) (by decide)
  · exact (w3 gStatic c8a c8m 0 [] c8oSingle [] 9 (by decide) rfl rfl).trans (by decide)
  · exact (w4 gStatic c8a c8m 0 [] c8oGroup [] 3 7 (by decide) rfl rfl
      (by decide)).trans (by decide)
  · exact (w5 gStatic AccountLedger.new c8m 0 [] c8oGroup [] 3 7 (by decide) rfl rfl
      (by decide)).trans (by decide)
  · exact (w6 gStatic c8a c8m 0 [] c8oAcct [] 7 ⟨[(7, ⟨6, 0, none⟩)]⟩ (by decide) rfl rfl
      rfl).trans (by decide)
  · exact (w7 gStatic AccountLedger.new c8m 0 [] c8oAcct [] 7 (by decide) rfl rfl
      (by decide)).trans (by decide)
  · exact (w8 gStatic c8a c8m 0 [] c8oMsig [] 4 ⟨[(4, ⟨7, 0, ⟨1, [9]⟩⟩)]⟩ (by decide)
      rfl rfl rfl).trans (by decide)
  · exact w9 gStatic c8a MultisigLedger.new 0 [] c8oMsig [] 4 (by decide) rfl rfl rfl
  · have h := w10 [c8oMsig] gStatic c8a c8m 0 [] [] c8a
      ⟨[(4, ⟨7, 0, ⟨1, [9]⟩⟩)]⟩ (by decide)
    exact ⟨h.1, h.2 c8oMsig (by simp) 4 rfl⟩
  · exact w11 UtxoLedger.new c8a c8m gStatic gParams 77
      [c8oSingle, c8oAcct, c8oGroup, c8oMsig] ⟨[(77, [(0, c8oSingle), (2, c8oGroup)])]⟩
      ⟨[(7, ⟨6, 0, none⟩)]⟩ ⟨[(4, ⟨7, 0, ⟨1, [9]⟩⟩)]⟩ (by decide)

/-! ## C1 — value conservation: sub-ledger sum lemmas -/

theorem removeOut_sum {A : Type} : ∀ (outs : List (Nat × Output A)) (idx : Nat)
    (o : Output A) (outs' : List (Nat × Output A)),
    removeOut outs idx = some (o, outs') →
    sumOuts outs = o.value + sumOuts outs' := by
  intro outs
  induction outs with
  | nil => intro idx o outs' h; simp [removeOut] at h
  | cons e rest ih =>
    intro idx o outs' h
    unfold removeOut at h
    split at h
    · simp at h
      obtain ⟨h1, h2⟩ := h
      subst h1
      subst h2
      simp [sumOuts]
    · cases hr : removeOut rest idx with
      | none => rw [hr] at h; simp at h
      | some pr =>
        obtain ⟨o1, rest1⟩ := pr
        rw [hr] at h
        simp at h
        obtain ⟨h1, h2⟩ := h
        subst h1
        subst h2
        have := ih idx o1 rest1 hr
        simp [sumOuts] at this ⊢
        omega

theorem removeEntry_sum {A : Type} : ∀ (entries : List (Nat × List (Nat × Output A)))
    (txid idx : Nat) (o : Output A) (entries' : List (Nat × List (Nat × Output A))),
    removeEntry entries txid idx = some (o, entries') →
    (entries.map (fun e => sumOuts e.2)).sum =
      o.value + (entries'.map (fun e => sumOuts e.2)).sum := by
  intro entries
  induction entries with
  | nil => intro txid idx o entries' h; simp [removeEntry] at h
  | cons e rest ih =>
    intro txid idx o entries' h
    unfold removeEntry at h
    split at h
    · cases hr : removeOut e.2 idx with
      | none => rw [hr] at h; simp at h
      | some pr =>
        obtain ⟨o1, outs1⟩ := pr
        rw [hr] at h
        simp at h
        obtain ⟨h1, h2⟩ := h
        subst h1
        have hsum := removeOut_sum e.2 idx o1 outs1 hr
        by_cases he : outs1.isEmpty
        · rw [if_pos he] at h2
          subst h2
          have : outs1 = [] := by
            cases outs1
            · rfl
            · simp [List.isEmpty] at he
          subst this
          simp [sumOuts] at hsum
          simpa [sumOuts] using hsum
        · rw [if_neg he] at h2
          subst h2
          simp [hsum]
          omega
    · cases hr : removeEntry rest txid idx with
      | none => rw [hr] at h; simp at h
      | some pr =>
        obtain ⟨o1, rest1⟩ := pr
        rw [hr] at h
        simp at h
        obtain ⟨h1, h2⟩ := h
        subst h1
        subst h2
        have := ih txid idx o1 rest1 hr
        simp [this]
        omega

theorem utxo_remove_total {A : Type} (l : UtxoLedger A) (txid idx : Nat)
    (l' : UtxoLedger A) (o : Output A) (h : l.remove txid idx = .ok (l', o)) :
    l.totalNat = o.value + l'.totalNat := by
  unfold UtxoLedger.remove at h
  cases hr : removeEntry l.entries txid idx with
  | none => rw [hr] at h; simp at h
  | some pr =>
    obtain ⟨o1, es⟩ := pr
    rw [hr] at h
    simp at h
    obtain ⟨h1, h2⟩ := h
    subst h2
    subst h1
    have := removeEntry_sum l.entries txid idx o1 es hr
    unfold UtxoLedger.totalNat
    simpa using this

theorem utxo_add_total {A : Type} (l : UtxoLedger A) (txid : Nat)
    (outs : List (Nat × Output A)) (l' : UtxoLedger A)
    (h : l.add txid outs = .ok l') :
    l'.totalNat = l.totalNat + sumOuts outs := by
  unfold UtxoLedger.add at h
  split at h
  · simp at h
  split at h
  · simp at h
    subst h
    unfold UtxoLedger.totalNat
    simp
    omega
  · simp at h

theorem creditEntries_sum : ∀ (es : List (Nat × AccountState)) (id v : Nat)
    (es' : List (Nat × AccountState)), creditEntries es id v = .ok es' →
    (es'.map (fun e => e.2.balance)).sum = (es.map (fun e => e.2.balance)).sum + v := by
  intro es
  induction es with
  | nil => intro id v es' h; simp [creditEntries] at h
  | cons e rest ih =>
    intro id v es' h
    unfold creditEntries at h
    split at h
    · cases ha : value_checked_add e.2.balance v with
      | none => rw [ha] at h; simp at h
      | some b =>
        rw [ha] at h
        simp at h
        subst h
        unfold value_checked_add at ha
        split at ha
        · simp at ha
          simp [← ha]
          omega
        · simp at ha
    · cases hr : creditEntries rest id v with
      | error e2 => rw [hr] at h; simp at h
      | ok rest' =>
        rw [hr] at h
        simp at h
        subst h
        have := ih id v rest' hr
        simp [this]
        omega

theorem debitEntries_sum : ∀ (es : List (Nat × AccountState)) (id v : Nat)
    (es' : List (Nat × AccountState)) (c : Nat), debitEntries es id v = .ok (es', c) →
    (es.map (fun e => e.2.balance)).sum = (es'.map (fun e => e.2.balance)).sum + v := by
  intro es
  induction es with
  | nil => intro id v es' c h; simp [debitEntries] at h
  | cons e rest ih =>
    intro id v es' c h
    unfold debitEntries at h
    split at h
    · split at h
      · rename_i hle
        simp at h
        obtain ⟨h1, h2⟩ := h
        subst h1
        simp
        omega
      · simp at h
    · cases hr : debitEntries rest id v with
      | error e2 => rw [hr] at h; simp at h
      | ok pr =>
        obtain ⟨rest', c1⟩ := pr
        rw [hr] at h
        simp at h
        obtain ⟨h1, h2⟩ := h
        subst h1
        have := ih id v rest' c1 hr
        simp [this]
        omega

theorem delegateEntries_sum : ∀ (es : List (Nat × AccountState)) (id : Nat)
    (p : Option Nat) (es' : List (Nat × AccountState)),
    delegateEntries es id p = .ok es' →
    (es'.map (fun e => e.2.balance)).sum = (es.map (fun e => e.2.balance)).sum := by
  intro es
  induction es with
  | nil => intro id p es' h; simp [delegateEntries] at h
  | cons e rest ih =>
    intro id p es' h
    unfold delegateEntries at h
    split at h
    · simp at h
      subst h
      simp
    · cases hr : delegateEntries rest id p with
      | error e2 => rw [hr] at h; simp at h
      | ok rest' =>
        rw [hr] at h
        simp at h
        subst h
        have := ih id p rest' hr
        simp [this]

theorem mcreditEntries_sum : ∀ (es : List (Nat × MultisigState)) (id v : Nat)
    (es' : List (Nat × MultisigState)), mcreditEntries es id v = .ok es' →
    (es'.map (fun e => e.2.balance)).sum = (es.map (fun e => e.2.balance)).sum + v := by
  intro es
  induction es with
  | nil => intro id v es' h; simp [mcreditEntries] at h
  | cons e rest ih =>
    intro id v es' h
    unfold mcreditEntries at h
    split at h
    · cases ha : value_checked_add e.2.balance v with
      | none => rw [ha] at h; simp at h
      | some b =>
        rw [ha] at h
        simp at h
        subst h
        unfold value_checked_add at ha
        split at ha
        · simp at ha
          simp [← ha]
          omega
        · simp at ha
    · cases hr : mcreditEntries rest id v with
      | error e2 => rw [hr] at h; simp at h
      | ok rest' =>
        rw [hr] at h
        simp at h
        subst h
        have := ih id v rest' hr
        simp [this]
        omega

theorem mdebitEntries_sum : ∀ (es : List (Nat × MultisigState)) (id v : Nat)
    (es' : List (Nat × MultisigState)) (d : Declaration) (c : Nat),
    mdebitEntries es id v = .ok (es', d, c) →
    (es.map (fun e => e.2.balance)).sum = (es'.map (fun e => e.2.balance)).sum + v := by
  intro es
  induction es with
  | nil => intro id v es' d c h; simp [mdebitEntries] at h
  | cons e rest ih =>
    intro id v es' d c h
    unfold mdebitEntries at h
    split at h
    · split at h
      · rename_i hle
        simp at h
        obtain ⟨h1, h2⟩ := h
        subst h1
        simp
        omega
      · simp at h
    · cases hr : mdebitEntries rest id v with
      | error e2 => rw [hr] at h; simp at h
      | ok pr =>
        obtain ⟨rest', d1, c1⟩ := pr
        rw [hr] at h
        simp at h
        obtain ⟨h1, h2⟩ := h
        subst h1
        have := ih id v rest' d1 c1 hr
        simp [this]
        omega

theorem account_remove_total (l : AccountLedger) (id v : Nat) (l' : AccountLedger)
    (c : Nat) (h : l.remove_value id v = .ok (l', c)) :
    l.totalNat = l'.totalNat + v := by
  unfold AccountLedger.remove_value at h
  cases hr : debitEntries l.entries id v with
  | error e => rw [hr] at h; simp at h
  | ok pr =>
    obtain ⟨es, c1⟩ := pr
    rw [hr] at h
    simp at h
    obtain ⟨h1, h2⟩ := h
    subst h1
    exact debitEntries_sum l.entries id v es c1 hr

theorem account_add_total (l : AccountLedger) (id v : Nat) (l' : AccountLedger)
    (h : l.add_value id v = .ok l') : l'.totalNat = l.totalNat + v := by
  unfold AccountLedger.add_value at h
  cases hr : creditEntries l.entries id v with
  | error e => rw [hr] at h; simp at h
  | ok es =>
    rw [hr] at h
    simp at h
    subst h
    exact creditEntries_sum l.entries id v es hr

theorem account_create_total (l : AccountLedger) (id v : Nat) (l' : AccountLedger)
    (h : l.add_account id v = .ok l') : l'.totalNat = l.totalNat + v := by
  unfold AccountLedger.add_account at h
  split at h
  · simp at h
  · simp at h
    subst h
    unfold AccountLedger.totalNat
    simp
    omega

theorem account_deleg_total (l : AccountLedger) (id : Nat) (p : Option Nat)
    (l' : AccountLedger) (h : l.set_delegation id p = .ok l') :
    l'.totalNat = l.totalNat := by
  unfold AccountLedger.set_delegation at h
  cases hr : delegateEntries l.entries id p with
  | error e => rw [hr] at h; simp at h
  | ok es =>
    rw [hr] at h
    simp at h
    subst h
    exact delegateEntries_sum l.entries id p es hr

theorem msig_remove_total (l : MultisigLedger) (id v : Nat) (l' : MultisigLedger)
    (d : Declaration) (c : Nat) (h : l.remove_value id v = .ok (l', d, c)) :
    l.totalNat = l'.totalNat + v := by
  unfold MultisigLedger.remove_value at h
  cases hr : mdebitEntries l.entries id v with
  | error e => rw [hr] at h; simp at h
  | ok pr =>
    obtain ⟨es, d1, c1⟩ := pr
    rw [hr] at h
    simp at h
    obtain ⟨h1, h2⟩ := h
    subst h1
    exact mdebitEntries_sum l.entries id v es d1 c1 hr

theorem msig_add_total (l : MultisigLedger) (id v : Nat) (l' : MultisigLedger)
    (h : l.add_value id v = .ok l') : l'.totalNat = l.totalNat + v := by
  unfold MultisigLedger.add_value at h
  cases hr : mcreditEntries l.entries id v with
  | error e => rw [hr] at h; simp at h
  | ok es =>
    rw [hr] at h
    simp at h
    subst h
    exact mcreditEntries_sum l.entries id v es hr

/-! ## C1 — value conservation: ledger-level lemmas -/

theorem input_utxo_verify_total (l : Ledger) (tid : Nat) (u : UtxoPointer)
    (w : Witness) (l' : Ledger) (h : input_utxo_verify l tid u w = .ok l') :
    l'.totalNat + u.value = l.totalNat := by
  unfold input_utxo_verify at h
  cases w with
  | Account s => simp at h
  | Multisig s => simp at h
  | OldUtxo xpub sig =>
    rw [R.bind_ok_iff] at h
    obtain ⟨⟨r1, r2⟩, hrem, h⟩ := h
    rw [liftUtxo_ok_iff] at hrem
    have hrt := utxo_remove_total l.oldutxos u.transaction_id u.output_index r1 r2 hrem
    simp only [] at h
    by_cases hval : u.value ≠ r2.value
    · rw [if_pos hval] at h; simp at h
    · rw [if_neg hval] at h
      push_neg at hval
      split at h
      · simp at h
      · split at h
        · simp at h
        · simp at h
          subst h
          unfold Ledger.totalNat
          simp
          omega
  | Utxo sig =>
    rw [R.bind_ok_iff] at h
    obtain ⟨⟨r1, r2⟩, hrem, h⟩ := h
    rw [liftUtxo_ok_iff] at hrem
    have hrt := utxo_remove_total l.utxos u.transaction_id u.output_index r1 r2 hrem
    simp only [] at h
    by_cases hval : u.value ≠ r2.value
    · rw [if_pos hval] at h; simp at h
    · rw [if_neg hval] at h
      push_neg at hval
      split at h
      · simp at h
      · split at h
        · simp at h
        · simp at h
          subst h
          unfold Ledger.totalNat
          simp
          omega

theorem input_account_verify_total (a : AccountLedger) (m : MultisigLedger)
    (b0 tid : Nat) (aid : AccountIdentifier) (v : Nat) (w : Witness)
    (a' : AccountLedger) (m' : MultisigLedger)
    (h : input_account_verify a m b0 tid aid v w = .ok (a', m')) :
    a'.totalNat + m'.totalNat + v = a.totalNat + m.totalNat := by
  unfold input_account_verify at h
  cases w with
  | OldUtxo x s => simp at h
  | Utxo s => simp at h
  | Account sig =>
    simp only [] at h
    split at h
    · simp at h
    · rename_i acct hsingle
      rw [R.bind_ok_iff] at h
      obtain ⟨⟨l2, c⟩, hrem, h⟩ := h
      rw [liftAccount_ok_iff] at hrem
      have hrt := account_remove_total a acct v l2 c hrem
      simp only [] at h
      split at h
      · simp at h
      · simp at h
        obtain ⟨h1, h2⟩ := h
        subst h1
        subst h2
        omega
  | Multisig msig =>
    simp only [] at h
    rw [R.bind_ok_iff] at h
    obtain ⟨⟨l2, d, c⟩, hrem, h⟩ := h
    rw [liftMultisig_ok_iff] at hrem
    have hrt := msig_remove_total m aid.to_multi_account v l2 d c hrem
    simp only [] at h
    split at h
    · simp at h
    · simp at h
      obtain ⟨h1, h2⟩ := h
      subst h1
      subst h2
      omega

theorem process_inputs_total : ∀ (pairs : List (InputEnum × Witness)) (l : Ledger)
    (tid : Nat) (l' : Ledger), process_inputs l tid pairs = .ok l' →
    l'.totalNat + (pairs.map (fun p => p.1.value)).sum = l.totalNat := by
  intro pairs
  induction pairs with
  | nil =>
    intro l tid l' h
    unfold process_inputs at h
    simp at h
    simp [h]
  | cons p rest ih =>
    intro l tid l' h
    unfold process_inputs at h
    obtain ⟨i, w⟩ := p
    cases i with
    | utxoInput u =>
      simp only [] at h
      rw [R.bind_ok_iff] at h
      obtain ⟨l1, hv, h⟩ := h
      have h1 := input_utxo_verify_total l tid u w l1 hv
      have h2 := ih l1 tid l' h
      simp only [List.map_cons, List.sum_cons]
      have hhead : (InputEnum.utxoInput u).value = u.value := rfl
      rw [hhead]
      omega
    | accountInput aid v =>
      simp only [] at h
      rw [R.bind_ok_iff] at h
      obtain ⟨⟨a2, m2⟩, hv, h⟩ := h
      have h1 := input_account_verify_total l.accounts l.multisig
        l.static_params.block0_initial_hash tid aid v w a2 m2 hv
      have h2 := ih { l with accounts := a2, multisig := m2 } tid l' h
      unfold Ledger.totalNat at h2 ⊢
      simp only [] at h2
      simp only [List.map_cons, List.sum_cons]
      have hhead : (InputEnum.accountInput aid v).value = v := rfl
      rw [hhead]
      omega

theorem apply_outputs_loop_total : ∀ (outputs : List (Output Address))
    (sp : LedgerStaticParameters) (a : AccountLedger) (m : MultisigLedger)
    (idx : Nat) (acc acc' : List (Nat × Output Address)) (a' : AccountLedger)
    (m' : MultisigLedger),
    apply_outputs_loop sp a m idx acc outputs = .ok (acc', a', m') →
    a'.totalNat + m'.totalNat + sumOuts acc' =
      a.totalNat + m.totalNat + sumOuts acc + (outputs.map (fun o => o.value)).sum := by
  intro outputs
  induction outputs with
  | nil =>
    intro sp a m idx acc acc' a' m' h
    unfold apply_outputs_loop at h
    simp at h
    obtain ⟨h1, h2, h3⟩ := h
    subst h1; subst h2; subst h3
    simp
  | cons o rest ih =>
    intro sp a m idx acc acc' a' m' h
    unfold apply_outputs_loop at h
    split at h
    · simp at h
    split at h
    · simp at h
    split at h
    · rename_i k hk
      have := ih sp a m (idx + 1) (acc ++ [(idx % 256, o)]) acc' a' m' h
      simp [sumOuts] at this ⊢
      omega
    · rename_i k aid hk
      split at h
      · rename_i hex
        have := ih sp a m (idx + 1) (acc ++ [(idx % 256, o)]) acc' a' m' h
        simp [sumOuts] at this ⊢
        omega
      · rename_i hex
        rw [R.bind_ok_iff] at h
        obtain ⟨a2, hadd, h⟩ := h
        rw [liftAccount_ok_iff] at hadd
        have hct := account_create_total a aid 0 a2 hadd
        have := ih sp a2 m (idx + 1) (acc ++ [(idx % 256, o)]) acc' a' m' h
        simp [sumOuts] at this ⊢
        omega
    · rename_i aid hk
      split at h
      · rename_i a2 hadd
        have hat := account_add_total a aid o.value a2 hadd
        have := ih sp a2 m (idx + 1) acc acc' a' m' h
        simp at this ⊢
        omega
      · rename_i hadd
        rw [R.bind_ok_iff] at h
        obtain ⟨a2, hacc, h⟩ := h
        rw [liftAccount_ok_iff] at hacc
        have hct := account_create_total a aid o.value a2 hacc
        have := ih sp a2 m (idx + 1) acc acc' a' m' h
        simp at this ⊢
        omega
      · rename_i e hadd hne
        simp at h
    · rename_i mid hk
      rw [R.bind_ok_iff] at h
      obtain ⟨m2, hadd, h⟩ := h
      rw [liftMultisig_ok_iff] at hadd
      have hmt := msig_add_total m mid o.value m2 hadd
      have := ih sp a m2 (idx + 1) acc acc' a' m' h
      simp at this ⊢
      omega

theorem internal_apply_transaction_output_total (u : UtxoLedger Address)
    (a : AccountLedger) (m : MultisigLedger) (sp : LedgerStaticParameters)
    (dp : LedgerParameters) (tid : Nat) (outputs : List (Output Address))
    (u' : UtxoLedger Address) (a' : AccountLedger) (m' : MultisigLedger)
    (h : internal_apply_transaction_output u a m sp dp tid outputs = .ok (u', a', m')) :
    u'.totalNat + a'.totalNat + m'.totalNat =
      u.totalNat + a.totalNat + m.totalNat + (outputs.map (fun o => o.value)).sum := by
  unfold internal_apply_transaction_output at h
  rw [R.bind_ok_iff] at h
  obtain ⟨⟨r1, r2, r3⟩, hloop, h⟩ := h
  rw [R.bind_ok_iff] at h
  obtain ⟨u2, hadd, h⟩ := h
  rw [liftUtxo_ok_iff] at hadd
  simp at h
  obtain ⟨h1, h2, h3⟩ := h
  subst h1; subst h2; subst h3
  have hlt := apply_outputs_loop_total outputs sp a m 0 [] r1 r2 r3 hloop
  have hut := utxo_add_total u tid r1 u2 hadd
  simp [sumOuts] at hlt hut
  omega

theorem zip_fst_value_sum (ins : List InputEnum) (wits : List Witness)
    (hlen : ins.length = wits.length) :
    ((ins.zip wits).map (fun p => p.1.value)).sum = (ins.map InputEnum.value).sum := by
  have h1 : (ins.zip wits).map (fun p : InputEnum × Witness => p.1.value) =
      ((ins.zip wits).map Prod.fst).map InputEnum.value := by
    rw [List.map_map]
    rfl
  rw [h1, List.map_fst_zip ins wits (le_of_eq hlen)]

theorem internal_apply_transaction_total (l : Ledger) (dp : LedgerParameters)
    (tid : Nat) (ins : List InputEnum) (outs : List (Output Address))
    (wits : List Witness) (fee : Nat) (l' : Ledger)
    (h : internal_apply_transaction l dp tid ins outs wits fee = .ok l') :
    l'.totalNat + fee = l.totalNat := by
  unfold internal_apply_transaction at h
  split at h
  · simp at h
  split at h
  · simp at h
  split at h
  · simp at h
  split at h
  · simp at h
  rename_i hlen
  simp at hlen
  rw [R.bind_ok_iff] at h
  obtain ⟨l1, hpi, h⟩ := h
  have hpt := process_inputs_total (ins.zip wits) l tid l1 hpi
  rw [zip_fst_value_sum ins wits hlen] at hpt
  cases hti : value_sum (ins.map InputEnum.value) with
  | none => rw [hti] at h; simp at h
  | some ti =>
    rw [hti] at h
    cases hto : value_sum (outs.map (fun o => o.value) ++ [fee]) with
    | none => rw [hto] at h; simp at h
    | some tou =>
      rw [hto] at h
      simp only [] at h
      split at h
      · simp at h
      · rename_i hnn
        have hbal : ti = tou := by
          by_contra hc
          exact hnn hc
        rw [R.bind_ok_iff] at h
        obtain ⟨⟨u2, a2, m2⟩, hout, h⟩ := h
        simp at h
        subst h
        have hot := internal_apply_transaction_output_total l1.utxos l1.accounts
          l1.multisig l1.static_params dp tid outs u2 a2 m2 hout
        have hsi := value_sum_some hti
        have hso := value_sum_some hto
        rw [List.sum_append] at hso
        simp at hso
        unfold Ledger.totalNat at hpt ⊢
        simp only []
        omega

theorem apply_transaction_total {E : Type} (l : Ledger)
    (tx : AuthenticatedTransaction Address E) (ncert : Nat)
    (dp : LedgerParameters) (l' : Ledger) (fee : Nat)
    (h : l.apply_transaction tx ncert dp = .ok (l', fee)) :
    l'.totalNat + fee = l.totalNat ∧
    dp.fees.calculate tx.transaction.inputs.length tx.transaction.outputs.length
      ncert = some fee := by
  unfold Ledger.apply_transaction at h
  split at h
  · simp at h
  · rename_i t ht
    simp only [] at h
    rw [R.bind_ok_iff] at h
    obtain ⟨l1, hi, h⟩ := h
    simp at h
    obtain ⟨h1, h2⟩ := h
    subst h1
    subst h2
    exact ⟨internal_apply_transaction_total l dp tx.transaction.hash
      tx.transaction.inputs tx.transaction.outputs tx.witnesses _ l1 hi, ht⟩

theorem apply_certificate_content_total (l : Ledger) (c : Certificate)
    (l' : Ledger) (h : l.apply_certificate_content c = .ok l') :
    l'.totalNat = l.totalNat := by
  unfold Ledger.apply_certificate_content at h
  split at h
  · split at h
    · simp at h
    · split at h
      · rename_i ak hak
        rw [R.bind_ok_iff] at h
        obtain ⟨a2, hset, h⟩ := h
        rw [liftAccount_ok_iff] at hset
        have := account_deleg_total l.accounts ak _ a2 hset
        simp at h
        subst h
        unfold Ledger.totalNat
        simp [this]
      · simp at h
  · rw [R.bind_ok_iff] at h
    obtain ⟨d, hreg, h⟩ := h
    simp at h
    subst h
    unfold Ledger.totalNat
    simp
  · rw [R.bind_ok_iff] at h
    obtain ⟨d, hreg, h⟩ := h
    simp at h
    subst h
    unfold Ledger.totalNat
    simp

theorem apply_certificate_total (l : Ledger)
    (atx : AuthenticatedTransaction Address Certificate) (dp : LedgerParameters)
    (l' : Ledger) (fee : Nat) (h : l.apply_certificate atx dp = .ok (l', fee)) :
    l'.totalNat + fee = l.totalNat ∧
    dp.fees.calculate atx.transaction.inputs.length atx.transaction.outputs.length 1 =
      some fee := by
  unfold Ledger.apply_certificate at h
  split at h
  · simp at h
  · rw [R.bind_ok_iff] at h
    obtain ⟨⟨l1, fee1⟩, ht, h⟩ := h
    rw [R.bind_ok_iff] at h
    obtain ⟨l2, hcc, h⟩ := h
    simp at h
    obtain ⟨h1, h2⟩ := h
    subst h1
    subst h2
    have h3 := apply_transaction_total l atx 1 dp l1 fee1 ht
    have h4 := apply_certificate_content_total l1 atx.transaction.extra l2 hcc
    exact ⟨by omega, h3.2⟩

theorem apply_fragment_total (l : Ledger) (p : LedgerParameters) (c : Message)
    (meta : HeaderContentEvalContext) (l' : Ledger)
    (h : l.apply_fragment p c meta = .ok l') :
    l'.totalNat + fragmentFee p c = l.totalNat := by
  unfold Ledger.apply_fragment at h
  cases c with
  | Initial ps => simp at h
  | OldUtxoDeclaration d => simp at h
  | Transaction atx =>
    simp only [] at h
    rw [R.bind_ok_iff] at h
    obtain ⟨⟨l1, fee1⟩, hv, h⟩ := h
    simp at h
    subst h
    have ht := apply_transaction_total l atx 0 p l1 fee1 hv
    unfold fragmentFee
    simp only []
    rw [ht.2]
    simpa using ht.1
  | Certificate atx =>
    simp only [] at h
    rw [R.bind_ok_iff] at h
    obtain ⟨⟨l1, fee1⟩, hv, h⟩ := h
    simp at h
    subst h
    have ht := apply_certificate_total l atx p l1 fee1 hv
    unfold fragmentFee
    simp only []
    rw [ht.2]
    simpa using ht.1
  | UpdateProposal up =>
    simp only [] at h
    unfold Ledger.apply_update_proposal at h
    rw [R.bind_ok_iff] at h
    obtain ⟨u, hu, h⟩ := h
    simp at h
    subst h
    unfold fragmentFee Ledger.totalNat
    simp
  | UpdateVote v =>
    simp only [] at h
    unfold Ledger.apply_update_vote at h
    rw [R.bind_ok_iff] at h
    obtain ⟨u, hu, h⟩ := h
    simp at h
    subst h
    unfold fragmentFee Ledger.totalNat
    simp

theorem apply_fragments_total : ∀ (cs : List Message) (l : Ledger)
    (p : LedgerParameters) (meta : HeaderContentEvalContext) (l' : Ledger),
    apply_fragments p meta l cs = .ok l' →
    l'.totalNat + blockFees p cs = l.totalNat := by
  intro cs
  induction cs with
  | nil =>
    intro l p meta l' h
    unfold apply_fragments at h
    simp at h
    simp [blockFees, h]
  | cons c rest ih =>
    intro l p meta l' h
    unfold apply_fragments at h
    rw [R.bind_ok_iff] at h
    obtain ⟨l1, hv, h⟩ := h
    have h1 := apply_fragment_total l p c meta l1 hv
    have h2 := ih l1 p meta l' h
    unfold blockFees at h2 ⊢
    simp only [List.map_cons, List.sum_cons]
    omega

theorem finish_block_total (meta : HeaderContentEvalContext) (nl : Ledger) :
    (finish_block meta nl).totalNat = nl.totalNat := by
  unfold finish_block
  cases hn : meta.nonce <;> simp [hn, Ledger.totalNat]

theorem apply_block_total (l : Ledger) (p : LedgerParameters) (cs : List Message)
    (meta : HeaderContentEvalContext) (l' : Ledger)
    (h : l.apply_block p cs meta = .ok l') :
    l'.totalNat + blockFees p cs = l.totalNat := by
  unfold Ledger.apply_block at h
  simp only [] at h
  split at h
  · simp at h
  split at h
  · simp at h
  rw [R.bind_ok_iff] at h
  obtain ⟨us, hpp, h⟩ := h
  rw [R.bind_ok_iff] at h
  obtain ⟨nl, haf, h⟩ := h
  simp at h
  subst h
  have h1 := apply_fragments_total cs _ p meta nl haf
  rw [finish_block_total]
  unfold Ledger.totalNat at h1 ⊢
  simp only [] at h1
  omega

/-! ## C1 — the conservation theorem -/

/-- C1: from any ledger produced by `Ledger::new`, along any chain of
successful `apply_block` calls, the total value over the four
compartments plus the accumulated transaction fees equals the initial
minted total — every collected fee is burned (the code credits fees to no
account), so total value equals the initial total plus fees collected
minus fees burned; in particular with all fees zero the total is exactly
constant. -/
theorem C1_value_conservation (h0 : Nat) (msgs : List Message) (l0 : Ledger)
    (hnew : Ledger.new h0 msgs = .ok l0) (l : Ledger) (fees : Nat)
    (hsteps : ApplySteps l0 l fees) :
    l.totalNat + fees = l0.totalNat ∧ (fees = 0 → l.totalNat = l0.totalNat) := by
  have hmain : l.totalNat + fees = l0.totalNat := by
    induction hsteps with
    | refl => simp
    | step params contents metadata happly hprev ih =>
      have hb := apply_block_total _ params contents metadata _ happly
      omega
  exact ⟨hmain, fun hz => by omega⟩

/-- The ledger after one empty block on the minimal genesis. -/
def gLedger1 : Ledger := { gLedger with chain_length := 1, date := ⟨0, 1⟩ }

theorem C1_witness :
    gLedger1.totalNat + (0 + blockFees gParams []) = gLedger.totalNat ∧
    (0 + blockFees gParams [] = 0 → gLedger1.totalNat = gLedger.totalNat) :=
  C1_value_conservation 0 gmsgs gLedger gLedger_new gLedger1 (0 + blockFees gParams [])
    (ApplySteps.step gParams [] ⟨⟨0, 1⟩, 1, none⟩ (by decide) (ApplySteps.refl gLedger))

/-! ## C10 — the new-utxo sub-ledger only stores Single/Group addresses -/

/-- Whether an output's address is of Single or Group kind. -/
def Output.isSingleOrGroup (o : Output Address) : Bool :=
  match o.address.kind with
  | .Single _ => true
  | .Group _ _ => true
  | _ => false

/-- Whether every output stored in a new-utxo sub-ledger is of Single or
Group kind. -/
def UtxoLedger.kindsOk (u : UtxoLedger Address) : Bool :=
  u.entries.all (fun e => e.2.all (fun io => io.2.isSingleOrGroup))

theorem sg_public_key (o : Output Address) (h : o.isSingleOrGroup = true) :
    o.address.public_key.isSome = true := by
  unfold Output.isSingleOrGroup at h
  unfold Address.public_key
  cases hk : o.address.kind <;> rw [hk] at h <;> simp_all

theorem removeOut_all {A : Type} (p : Output A → Bool) : ∀ (outs : List (Nat × Output A))
    (idx : Nat) (o : Output A) (outs' : List (Nat × Output A)),
    removeOut outs idx = some (o, outs') →
    outs.all (fun io => p io.2) = true →
    outs'.all (fun io => p io.2) = true ∧ p o = true := by
  intro outs
  induction outs with
  | nil => intro idx o outs' h _; simp [removeOut] at h
  | cons e rest ih =>
    intro idx o outs' h hall
    unfold removeOut at h
    simp only [List.all_cons, Bool.and_eq_true] at hall
    split at h
    · simp at h
      obtain ⟨h1, h2⟩ := h
      subst h1
      subst h2
      exact ⟨by simp [hall.2], hall.1⟩
    · cases hr : removeOut rest idx with
      | none => rw [hr] at h; simp at h
      | some pr =>
        obtain ⟨o1, rest1⟩ := pr
        rw [hr] at h
        simp at h
        obtain ⟨h1, h2⟩ := h
        subst h1
        subst h2
        have := ih idx o1 rest1 hr hall.2
        simp [this.1, this.2, hall.1]

theorem removeEntry_all {A : Type} (p : Output A → Bool) :
    ∀ (entries : List (Nat × List (Nat × Output A))) (txid idx : Nat) (o : Output A)
    (entries' : List (Nat × List (Nat × Output A))),
    removeEntry entries txid idx = some (o, entries') →
    entries.all (fun e => e.2.all (fun io => p io.2)) = true →
    entries'.all (fun e => e.2.all (fun io => p io.2)) = true ∧ p o = true := by
  intro entries
  induction entries with
  | nil => intro txid idx o entries' h _; simp [removeEntry] at h
  | cons e rest ih =>
    intro txid idx o entries' h hall
    unfold removeEntry at h
    simp only [List.all_cons, Bool.and_eq_true] at hall
    split at h
    · cases hr : removeOut e.2 idx with
      | none => rw [hr] at h; simp at h
      | some pr =>
        obtain ⟨o1, outs1⟩ := pr
        rw [hr] at h
        simp at h
        obtain ⟨h1, h2⟩ := h
        subst h1
        have hro := removeOut_all p e.2 idx o1 outs1 hr hall.1
        by_cases he : outs1.isEmpty
        · rw [if_pos he] at h2
          subst h2
          exact ⟨by simp [hall.2], hro.2⟩
        · rw [if_neg he] at h2
          subst h2
          simp [hro.1, hro.2, hall.2]
    · cases hr : removeEntry rest txid idx with
      | none => rw [hr] at h; simp at h
      | some pr =>
        obtain ⟨o1, rest1⟩ := pr
        rw [hr] at h
        simp at h
        obtain ⟨h1, h2⟩ := h
        subst h1
        subst h2
        have := ih txid idx o1 rest1 hr hall.2
        simp [this.1, this.2, hall.1]

theorem utxo_remove_all {A : Type} (p : Output A → Bool) (l : UtxoLedger A)
    (txid idx : Nat) (l' : UtxoLedger A) (o : Output A)
    (h : l.remove txid idx = .ok (l', o))
    (hall : l.entries.all (fun e => e.2.all (fun io => p io.2)) = true) :
    l'.entries.all (fun e => e.2.all (fun io => p io.2)) = true ∧ p o = true := by
  unfold UtxoLedger.remove at h
  cases hr : removeEntry l.entries txid idx with
  | none => rw [hr] at h; simp at h
  | some pr =>
    obtain ⟨o1, es⟩ := pr
    rw [hr] at h
    simp at h
    obtain ⟨h1, h2⟩ := h
    subst h2
    subst h1
    exact removeEntry_all p l.entries txid idx o1 es hr hall

theorem utxo_add_all {A : Type} (p : Output A → Bool) (l : UtxoLedger A)
    (tid : Nat) (outs : List (Nat × Output A)) (l' : UtxoLedger A)
    (h : l.add tid outs = .ok l')
    (hall : l.entries.all (fun e => e.2.all (fun io => p io.2)) = true)
    (houts : outs.all (fun io => p io.2) = true) :
    l'.entries.all (fun e => e.2.all (fun io => p io.2)) = true := by
  unfold UtxoLedger.add at h
  split at h
  · simp at h
  split at h
  · simp at h
    subst h
    simp [houts, hall]
  · simp at h

theorem spec_inserted_all : ∀ (outputs : List (Output Address)) (idx : Nat),
    (spec_inserted_utxos idx outputs).all (fun io => io.2.isSingleOrGroup) = true := by
  intro outputs
  induction outputs with
  | nil => intro idx; simp [spec_inserted_utxos]
  | cons o rest ih =>
    intro idx
    unfold spec_inserted_utxos
    cases hk : o.address.kind <;>
      simp only [List.all_cons, Bool.and_eq_true] <;>
      first
      | exact ⟨by simp [Output.isSingleOrGroup, hk], ih (idx + 1)⟩
      | exact ih (idx + 1)

theorem input_utxo_verify_kinds (l : Ledger) (tid : Nat) (u : UtxoPointer)
    (w : Witness) (l' : Ledger) (h : input_utxo_verify l tid u w = .ok l')
    (hok : l.utxos.kindsOk = true) : l'.utxos.kindsOk = true := by
  unfold input_utxo_verify at h
  cases w with
  | Account s => simp at h
  | Multisig s => simp at h
  | OldUtxo xpub sig =>
    rw [R.bind_ok_iff] at h
    obtain ⟨⟨r1, r2⟩, hrem, h⟩ := h
    simp only [] at h
    repeat' split at h
    all_goals simp at h
    subst h
    exact hok
  | Utxo sig =>
    rw [R.bind_ok_iff] at h
    obtain ⟨⟨r1, r2⟩, hrem, h⟩ := h
    rw [liftUtxo_ok_iff] at hrem
    have hra := utxo_remove_all (fun o => o.isSingleOrGroup) l.utxos
      u.transaction_id u.output_index r1 r2 hrem hok
    simp only [] at h
    repeat' split at h
    all_goals simp at h
    subst h
    exact hra.1

theorem process_inputs_kinds : ∀ (pairs : List (InputEnum × Witness)) (l : Ledger)
    (tid : Nat) (l' : Ledger), process_inputs l tid pairs = .ok l' →
    l.utxos.kindsOk = true → l'.utxos.kindsOk = true := by
  intro pairs
  induction pairs with
  | nil =>
    intro l tid l' h hok
    unfold process_inputs at h
    simp at h
    subst h
    exact hok
  | cons p rest ih =>
    intro l tid l' h hok
    unfold process_inputs at h
    obtain ⟨i, w⟩ := p
    cases i with
    | utxoInput u =>
      simp only [] at h
      rw [R.bind_ok_iff] at h
      obtain ⟨l1, hv, h⟩ := h
      exact ih l1 tid l' h (input_utxo_verify_kinds l tid u w l1 hv hok)
    | accountInput aid v =>
      simp only [] at h
      rw [R.bind_ok_iff] at h
      obtain ⟨⟨a2, m2⟩, hv, h⟩ := h
      exact ih _ tid l' h hok

theorem internal_output_kinds (u : UtxoLedger Address) (a : AccountLedger)
    (m : MultisigLedger) (sp : LedgerStaticParameters) (dp : LedgerParameters)
    (tid : Nat) (outputs : List (Output Address)) (u' : UtxoLedger Address)
    (a' : AccountLedger) (m' : MultisigLedger)
    (h : internal_apply_transaction_output u a m sp dp tid outputs = .ok (u', a', m'))
    (hok : u.kindsOk = true) : u'.kindsOk = true := by
  unfold internal_apply_transaction_output at h
  rw [R.bind_ok_iff] at h
  obtain ⟨⟨r1, r2, r3⟩, hloop, h⟩ := h
  rw [R.bind_ok_iff] at h
  obtain ⟨u2, hadd, h⟩ := h
  rw [liftUtxo_ok_iff] at hadd
  simp at h
  obtain ⟨h1, h2, h3⟩ := h
  subst h1
  have hacc := apply_outputs_loop_acc outputs sp a m 0 [] r1 r2 r3 hloop
  simp at hacc
  subst hacc
  exact utxo_add_all (fun o => o.isSingleOrGroup) u tid _ u2 hadd hok
    (spec_inserted_all outputs 0)

theorem internal_apply_transaction_kinds (l : Ledger) (dp : LedgerParameters)
    (tid : Nat) (ins : List InputEnum) (outs : List (Output Address))
    (wits : List Witness) (fee : Nat) (l' : Ledger)
    (h : internal_apply_transaction l dp tid ins outs wits fee = .ok l')
    (hok : l.utxos.kindsOk = true) : l'.utxos.kindsOk = true := by
  unfold internal_apply_transaction at h
  repeat' split at h
  all_goals try simp at h
  obtain ⟨l1, hpi, h⟩ := h
  obtain ⟨u2, a2, m2, hout, h⟩ := h
  subst h
  have h1 := process_inputs_kinds (ins.zip wits) l tid l1 hpi hok
  exact internal_output_kinds l1.utxos l1.accounts l1.multisig l1.static_params dp
    tid outs u2 a2 m2 hout h1

theorem apply_transaction_kinds {E : Type} (l : Ledger)
    (tx : AuthenticatedTransaction Address E) (ncert : Nat) (dp : LedgerParameters)
    (l' : Ledger) (fee : Nat) (h : l.apply_transaction tx ncert dp = .ok (l', fee))
    (hok : l.utxos.kindsOk = true) : l'.utxos.kindsOk = true := by
  unfold Ledger.apply_transaction at h
  split at h
  · simp at h
  · rename_i t ht
    simp only [] at h
    rw [R.bind_ok_iff] at h
    obtain ⟨l1, hi, h⟩ := h
    simp at h
    obtain ⟨h1, h2⟩ := h
    subst h1
    exact internal_apply_transaction_kinds l dp tx.transaction.hash
      tx.transaction.inputs tx.transaction.outputs tx.witnesses t l1 hi hok

theorem apply_fragment_kinds (l : Ledger) (p : LedgerParameters) (c : Message)
    (meta : HeaderContentEvalContext) (l' : Ledger)
    (h : l.apply_fragment p c meta = .ok l')
    (hok : l.utxos.kindsOk = true) : l'.utxos.kindsOk = true := by
  unfold Ledger.apply_fragment at h
  cases c with
  | Initial ps => simp at h
  | OldUtxoDeclaration d => simp at h
  | Transaction atx =>
    simp only [] at h
    rw [R.bind_ok_iff] at h
    obtain ⟨⟨l1, fee1⟩, hv, h⟩ := h
    simp at h
    subst h
    exact apply_transaction_kinds l atx 0 p l1 fee1 hv hok
  | Certificate atx =>
    simp only [] at h
    rw [R.bind_ok_iff] at h
    obtain ⟨⟨l1, fee1⟩, hv, h⟩ := h
    simp at h
    subst h
    unfold Ledger.apply_certificate at hv
    split at hv
    · simp at hv
    · rw [R.bind_ok_iff] at hv
      obtain ⟨⟨l2, fee2⟩, ht, hv⟩ := hv
      rw [R.bind_ok_iff] at hv
      obtain ⟨l3, hcc, hv⟩ := hv
      simp at hv
      obtain ⟨hv1, hv2⟩ := hv
      subst hv1
      have hk2 := apply_transaction_kinds l atx 1 p l2 fee2 ht hok
      have hfr := apply_certificate_content_frame l2 atx.transaction.extra l3 hcc
      rw [hfr.2.2.2.2.1]
      exact hk2
  | UpdateProposal up =>
    simp only [] at h
    unfold Ledger.apply_update_proposal at h
    rw [R.bind_ok_iff] at h
    obtain ⟨u, hu, h⟩ := h
    simp at h
    subst h
    exact hok
  | UpdateVote v =>
    simp only [] at h
    unfold Ledger.apply_update_vote at h
    rw [R.bind_ok_iff] at h
    obtain ⟨u, hu, h⟩ := h
    simp at h
    subst h
    exact hok

theorem apply_fragments_kinds : ∀ (cs : List Message) (l : Ledger)
    (p : LedgerParameters) (meta : HeaderContentEvalContext) (l' : Ledger),
    apply_fragments p meta l cs = .ok l' →
    l.utxos.kindsOk = true → l'.utxos.kindsOk = true := by
  intro cs
  induction cs with
  | nil =>
    intro l p meta l' h hok
    unfold apply_fragments at h
    simp at h
    subst h
    exact hok
  | cons c rest ih =>
    intro l p meta l' h hok
    unfold apply_fragments at h
    rw [R.bind_ok_iff] at h
    obtain ⟨l1, hv, h⟩ := h
    exact ih l1 p meta l' h (apply_fragment_kinds l p c meta l1 hv hok)

theorem finish_block_utxos (meta : HeaderContentEvalContext) (nl : Ledger) :
    (finish_block meta nl).utxos = nl.utxos := by
  unfold finish_block
  cases hn : meta.nonce <;> simp [hn]

theorem apply_block_kinds (l : Ledger) (p : LedgerParameters) (cs : List Message)
    (meta : HeaderContentEvalContext) (l' : Ledger)
    (h : l.apply_block p cs meta = .ok l')
    (hok : l.utxos.kindsOk = true) : l'.utxos.kindsOk = true := by
  unfold Ledger.apply_block at h
  simp only [] at h
  split at h
  · simp at h
  split at h
  · simp at h
  rw [R.bind_ok_iff] at h
  obtain ⟨us, hpp, h⟩ := h
  rw [R.bind_ok_iff] at h
  obtain ⟨nl, haf, h⟩ := h
  simp at h
  subst h
  rw [UtxoLedger.kindsOk, finish_block_utxos]
  exact apply_fragments_kinds cs _ p meta nl haf hok

theorem apply_block0_messages_kinds : ∀ (ms : List Message)
    (lp : LedgerParameters) (l : Ledger) (l' : Ledger),
    apply_block0_messages lp l ms = .ok l' →
    l.utxos.kindsOk = true → l'.utxos.kindsOk = true := by
  intro ms
  induction ms with
  | nil =>
    intro lp l l' h hok
    unfold apply_block0_messages at h
    simp at h
    subst h
    exact hok
  | cons c rest ih =>
    intro lp l l' h hok
    unfold apply_block0_messages at h
    cases c with
    | Initial ps => simp at h
    | OldUtxoDeclaration d =>
      simp only [] at h
      rw [R.bind_ok_iff] at h
      obtain ⟨o2, ho, h⟩ := h
      exact ih lp _ l' h hok
    | Transaction atx =>
      simp only [] at h
      split at h
      · simp at h
      split at h
      · simp at h
      rw [R.bind_ok_iff] at h
      obtain ⟨⟨u2, a2, m2⟩, hout, h⟩ := h
      simp only [] at h
      refine ih lp _ l' h ?_
      exact internal_output_kinds l.utxos l.accounts l.multisig l.static_params lp
        atx.transaction.hash atx.transaction.outputs u2 a2 m2 hout hok
    | UpdateProposal up => simp at h
    | UpdateVote v => simp at h
    | Certificate atx =>
      simp only [] at h
      split at h
      · simp at h
      split at h
      · simp at h
      split at h
      · simp at h
      rw [R.bind_ok_iff] at h
      obtain ⟨l2, hcc, h⟩ := h
      have hfr := apply_certificate_content_frame l atx.transaction.extra l2 hcc
      refine ih lp l2 l' h ?_
      rw [UtxoLedger.kindsOk, hfr.2.2.2.2.1]
      exact hok

theorem ledger_new_kinds (h0 : Nat) (msgs : List Message) (l0 : Ledger)
    (h : Ledger.new h0 msgs = .ok l0) : l0.utxos.kindsOk = true := by
  unfold Ledger.new at h
  cases msgs with
  | nil => simp at h
  | cons c rest =>
    cases c with
    | Initial init_ents =>
      simp only [] at h
      repeat' split at h
      all_goals try simp at h
      obtain ⟨hb0, -⟩ := h
      exact apply_block0_messages_kinds rest _ _ l0 hb0 rfl
    | OldUtxoDeclaration d => simp at h
    | Transaction atx => simp at h
    | Certificate atx => simp at h
    | UpdateProposal up => simp at h
    | UpdateVote v => simp at h

theorem liftUtxo_ne_panic {α : Type} (x : Except UtxoError α) :
    liftUtxo x ≠ .panic := by
  cases x <;> simp [liftUtxo]

theorem input_utxo_verify_no_panic (l : Ledger) (tid : Nat) (u : UtxoPointer)
    (w : Witness) (hok : l.utxos.kindsOk = true) :
    input_utxo_verify l tid u w ≠ .panic := by
  unfold input_utxo_verify
  cases w with
  | Account s => simp
  | Multisig s => simp
  | OldUtxo xpub sig =>
    intro hc
    rw [R.bind_panic_iff] at hc
    rcases hc with hc | ⟨a, ha, hc⟩
    · exact liftUtxo_ne_panic _ hc
    · simp only [] at hc
      repeat' split at hc
      all_goals simp at hc
  | Utxo sig =>
    intro hc
    rw [R.bind_panic_iff] at hc
    rcases hc with hc | ⟨⟨r1, r2⟩, ha, hc⟩
    · exact liftUtxo_ne_panic _ hc
    · rw [liftUtxo_ok_iff] at ha
      have hra := utxo_remove_all (fun o => o.isSingleOrGroup) l.utxos
        u.transaction_id u.output_index r1 r2 ha hok
      have hpk := sg_public_key r2 hra.2
      simp only [] at hc
      split at hc
      · simp at hc
      · split at hc
        · rename_i hnone
          simp [hnone] at hpk
        · split at hc <;> simp at hc

/-- C10: in every ledger reachable from `Ledger::new` through successful
`apply_block` calls, every output stored in the new-utxo sub-ledger has
an address of Single or Group kind; consequently `public_key()` on any
output removed from that sub-ledger returns Some, and the unwrap inside
`input_utxo_verify` is unreachable (the function never panics on such a
ledger). -/
theorem C10_new_utxos_single_or_group (h0 : Nat) (msgs : List Message)
    (l0 : Ledger) (hnew : Ledger.new h0 msgs = .ok l0) (l : Ledger) (fees : Nat)
    (hsteps : ApplySteps l0 l fees) :
    l.utxos.kindsOk = true ∧
    (∀ txid idx l2 out, l.utxos.remove txid idx = .ok (l2, out) →
      out.address.public_key.isSome = true) ∧
    (∀ tid u w, input_utxo_verify l tid u w ≠ .panic) := by
  have hok : l.utxos.kindsOk = true := by
    induction hsteps with
    | refl => exact ledger_new_kinds h0 msgs l0 hnew
    | step params contents metadata happly hprev ih =>
      exact apply_block_kinds _ params contents metadata _ happly ih
  refine ⟨hok, ?_, ?_⟩
  · intro txid idx l2 out hrem
    exact sg_public_key out
      (utxo_remove_all (fun o => o.isSingleOrGroup) l.utxos txid idx l2 out hrem hok).2
  · intro tid u w
    exact input_utxo_verify_no_panic l tid u w hok

theorem C10_witness : gLedger.utxos.kindsOk = true :=
  (C10_new_utxos_single_or_group 0 gmsgs gLedger gLedger_new gLedger 0
    (ApplySteps.refl gLedger)).1

/-! ## C2 — `apply_block` is all-or-nothing for the caller's snapshot.

The Rust function takes `&self` and works on `let mut new_ledger =
self.clone()`. To state that the caller's snapshot is never mutated, the
call is re-expressed over an explicit two-cell memory: `selfCell` is the
memory behind `&self`, `newCell` the local `new_ledger`; every assignment
of the source writes `newCell` only. -/

/-- The memory visible during one `apply_block` call. -/
structure Mem2 where
  selfCell : Ledger
  newCell : Ledger
deriving DecidableEq

/-- Forget the value of an outcome. -/
def R.toUnit {α : Type} : R α → R Unit
  | .ok _ => .ok ()
  | .err e => .err e
  | .panic => .panic

/-- The fragment loop of `apply_block` (ledger.rs lines 339-341) over the
two-cell memory: `new_ledger = new_ledger.apply_fragment(..)?` writes the
`newCell`; on error the loop exits leaving memory as it was. -/
def apply_fragments_mem (p : LedgerParameters) (meta : HeaderContentEvalContext) :
    List Message → Mem2 → R Unit × Mem2
  | [], m => (.ok (), m)
  | c :: cs, m =>
    match m.newCell.apply_fragment p c meta with
    | .ok l' => apply_fragments_mem p meta cs { m with newCell := l' }
    | .err e => (.err e, m)
    | .panic => (.panic, m)

/-- The closing statements of `apply_block` over the memory: run the
fragment loop, then on success set the date and mix the nonce in the
`newCell` (via `finish_block`) and return it. -/
def apply_block_mem_tail (p : LedgerParameters) (meta : HeaderContentEvalContext)
    (contents : List Message) (m : Mem2) : R Ledger × Mem2 :=
  match apply_fragments_mem p meta contents m with
  | (.ok _, m2) =>
    (.ok (finish_block meta m2.newCell), { m2 with newCell := finish_block meta m2.newCell })
  | (.err e, m2) => (.err e, m2)
  | (.panic, m2) => (.panic, m2)

/-- Embedding of `Ledger::apply_block` (ledger.rs lines 304-349) over the two-cell
memory, statement by statement; `selfCell` is only ever read. -/
def apply_block_mem (m : Mem2) (p : LedgerParameters) (contents : List Message)
    (meta : HeaderContentEvalContext) : R Ledger × Mem2 :=
  let m := { m with newCell := m.selfCell }
  let m := { m with newCell :=
    { m.newCell with chain_length := m.selfCell.chain_length + 1 } }
  if meta.chain_length ≠ m.newCell.chain_length then
    (.err (.WrongChainLength meta.chain_length m.newCell.chain_length), m)
  else if BlockDate.le meta.block_date m.newCell.date then
    (.err (.NonMonotonicDate meta.block_date m.newCell.date), m)
  else
    match m.newCell.updates.process_proposals m.newCell.settings m.newCell.date
        meta.block_date with
    | .error e => (.err (.Update e), m)
    | .ok us =>
      let m := { m with newCell :=
        { m.newCell with updates := us.1, settings := us.2 } }
      apply_block_mem_tail p meta contents m

theorem apply_fragments_mem_self : ∀ (cs : List Message) (p : LedgerParameters)
    (meta : HeaderContentEvalContext) (m : Mem2),
    (apply_fragments_mem p meta cs m).2.selfCell = m.selfCell := by
  intro cs
  induction cs with
  | nil => intro p meta m; rfl
  | cons c rest ih =>
    intro p meta m
    unfold apply_fragments_mem
    cases hv : m.newCell.apply_fragment p c meta with
    | ok l' => simpa using ih p meta { m with newCell := l' }
    | err e => rfl
    | panic => rfl

theorem apply_fragments_mem_result : ∀ (cs : List Message) (p : LedgerParameters)
    (meta : HeaderContentEvalContext) (m : Mem2),
    (apply_fragments_mem p meta cs m).1 =
      (apply_fragments p meta m.newCell cs).toUnit ∧
    (∀ l', apply_fragments p meta m.newCell cs = .ok l' →
      (apply_fragments_mem p meta cs m).2.newCell = l') := by
  intro cs
  induction cs with
  | nil =>
    intro p meta m
    constructor
    · rfl
    · intro l' h
      unfold apply_fragments at h
      simp at h
      simp [apply_fragments_mem, h]
  | cons c rest ih =>
    intro p meta m
    constructor
    · unfold apply_fragments_mem apply_fragments
      cases hv : m.newCell.apply_fragment p c meta with
      | ok l' => simpa using (ih p meta { m with newCell := l' }).1
      | err e => rfl
      | panic => rfl
    · intro l' h
      unfold apply_fragments at h
      rw [R.bind_ok_iff] at h
      obtain ⟨l1, hv, h⟩ := h
      unfold apply_fragments_mem
      rw [hv]
      exact (ih p meta { m with newCell := l1 }).2 l' h

/-- C2: `apply_block` never writes the caller's snapshot — the memory
behind `&self` is identical after the call, whatever the outcome, and in
particular on every error the caller still holds the original snapshot
unchanged; moreover the memory-level run returns exactly what the pure
state-passing `apply_block` returns on the caller's snapshot. -/
theorem C2_apply_block_all_or_nothing (m : Mem2) (p : LedgerParameters)
    (contents : List Message) (meta : HeaderContentEvalContext) :
    ((apply_block_mem m p contents meta).2.selfCell = m.selfCell) ∧
    ((apply_block_mem m p contents meta).1 =
      m.selfCell.apply_block p contents meta) ∧
    (∀ e, (apply_block_mem m p contents meta).1 = .err e →
      (apply_block_mem m p contents meta).2.selfCell = m.selfCell) := by
  have htail : ∀ (mm : Mem2),
      (apply_block_mem_tail p meta contents mm).2.selfCell = mm.selfCell ∧
      (apply_block_mem_tail p meta contents mm).1 =
        (apply_fragments p meta mm.newCell contents).bind
          (fun nl => .ok (finish_block meta nl)) := by
    intro mm
    unfold apply_block_mem_tail
    have hself := apply_fragments_mem_self contents p meta mm
    have hres := apply_fragments_mem_result contents p meta mm
    cases hfm : apply_fragments_mem p meta contents mm with
    | mk r1 m2 =>
      rw [hfm] at hself hres
      cases hfp : apply_fragments p meta mm.newCell contents with
      | ok nl =>
        have h1 := hres.1
        have h2 := hres.2 nl hfp
        rw [hfp] at h1
        simp [R.toUnit] at h1
        cases r1 with
        | ok uu =>
          simp at h2 hself ⊢
          simp [h2, hself]
        | err e => simp [R.toUnit] at h1
        | panic => simp [R.toUnit] at h1
      | err e =>
        have h1 := hres.1
        rw [hfp] at h1
        simp [R.toUnit] at h1
        cases r1 with
        | ok uu => simp [R.toUnit] at h1
        | err e2 =>
          simp at h1 hself ⊢
          simp [h1, hself]
        | panic => simp [R.toUnit] at h1
      | panic =>
        have h1 := hres.1
        rw [hfp] at h1
        simp [R.toUnit] at h1
        cases r1 with
        | ok uu => simp [R.toUnit] at h1
        | err e2 => simp [R.toUnit] at h1
        | panic => simpa using hself
  have hmain : ((apply_block_mem m p contents meta).2.selfCell = m.selfCell) ∧
      ((apply_block_mem m p contents meta).1 =
        m.selfCell.apply_block p contents meta) := by
    unfold apply_block_mem Ledger.apply_block
    simp only []
    split
    · exact ⟨rfl, rfl⟩
    split
    · exact ⟨rfl, rfl⟩
    cases hpp : m.selfCell.updates.process_proposals m.selfCell.settings
        m.selfCell.date meta.block_date with
    | error e => exact ⟨rfl, by simp [liftUpdate]⟩
    | ok us =>
      simp only [liftUpdate, R.ok_bind]
      exact ⟨(htail _).1, (htail _).2⟩
  exact ⟨hmain.1, hmain.2, fun e _ => hmain.1⟩

theorem C2_witness :
    (apply_block_mem ⟨gLedger, gLedger⟩ gParams [] ⟨⟨0, 1⟩, 5, none⟩).2.selfCell =
      gLedger :=
  (C2_apply_block_all_or_nothing ⟨gLedger, gLedger⟩ gParams [] ⟨⟨0, 1⟩, 5, none⟩).2.2
    (.WrongChainLength 5 1) (by decide)

end Mockchain
